import Mathlib

/-!
Verification of the search and evaluation core of a UCI chess engine.

Shallow embedding of the Rust sources:
  * `src/search/ordering.rs` — move ordering, history tables and their updates;
  * `src/search/mod.rs`      — quiescence and the alpha-beta negamax `search`;
  * `src/eval/mod.rs`        — the static evaluation;
  * `src/main.rs`            — the `go` time budgeting.

Modelling conventions.  The board library (`chessing`) is an external
collaborator; a board is an opaque value of a type `B` and the library
operations (move listing, legality, make/unmake, game state, hashing,
the wall clock) are fields of a `Rules B` record.  Make/unmake is pure:
`play` returns the successor board and "restore" is resuming with the
saved value.  Rust `Vec` tables indexed by small integers are modelled
as total functions (except `pv_table` and `hashes`, whose length
dynamics matter and which stay lists; the hash stack grows at the head).
`i32`/`i64` arithmetic is `Int` (no claim exercises wrap-around),
`u64`/`usize` is `Nat`; Rust signed `/` (truncation toward zero) is
`Int.tdiv`.  General recursion (`search`/`quiescence`) is embedded with
explicit fuel and an `Option` result, `none` meaning "out of fuel"; move
loops are structural recursion over the move list, with the recursive
child search passed in as a function argument.  The floating-point LMR
table initialisation of `create_search_info` is not reproduced: the
tables only feed branch conditions, and all statements quantify over
their contents.  The one behavioural divergence from Rust: out-of-range
`Vec` writes panic in Rust and are no-ops here (never reached by the
engine's own calling pattern).  Rust's unstable descending sort is
modelled by a stable insertion sort; no statement below depends on the
relative order of equally-scored moves.
-/

namespace Engine

/-- Rust `i32` division: truncation toward zero. -/
def rdiv (a b : Int) : Int := Int.tdiv a b

/-- Rust `clamp` on integers (`lo ≤ hi` in every use below). -/
def rclamp (x lo hi : Int) : Int := max lo (min x hi)

/-- The two sides, `chessing::game::Team`. -/
inductive Team where
  | white
  | black
deriving DecidableEq, Repr

/-- `Team::next`: the other side. -/
def Team.next : Team → Team
  | .white => .black
  | .black => .white

/-- `Team::index`: 0 for White, 1 for Black. -/
def Team.index : Team → Nat
  | .white => 0
  | .black => 1

/-- A move record (`chessing::game::action::Action`): origin and target
squares, moved piece type index, and the promotion/en-passant `info` byte. -/
structure Action where
  «from» : Nat
  «to» : Nat
  piece : Nat
  info : Nat
deriving DecidableEq, Repr

/-- An entry of the board's move history (`ActionRecord`): a played action
or a null move. -/
inductive ActionRecord where
  | action (a : Action)
  | null
deriving DecidableEq, Repr

/-- Result of `board.game_state` (`chessing::game::GameState`). -/
inductive GameState where
  | win (team : Team)
  | draw
  | ongoing
deriving DecidableEq, Repr

/-- Node type of a transposition-table entry (`search/mod.rs::Bounds`). -/
inductive Bounds where
  | exact
  | lower
  | upper
deriving DecidableEq, Repr

/-- A transposition-table entry (`search/mod.rs::TtEntry`). -/
structure TtEntry where
  hash : Nat
  best_move : Option Action
  score : Int
  depth : Int
  bounds : Bounds
deriving DecidableEq, Repr

/-- Per-ply scratch record (`search/mod.rs::PlyInfo`). -/
structure PlyInfo where
  eval : Int
deriving DecidableEq, Repr

/-- Butterfly history `[team][from][to]` (`ordering.rs::History`,
a `Vec<Vec<Vec<i32>>>` modelled as a total function). -/
def History : Type := Team → Nat → Nat → Int

/-- Continuation history `[prev team][prev piece][prev to][team][piece][to]`
(`ordering.rs::ContinuationHistory`). -/
def ContinuationHistory : Type := Team → Nat → Nat → Team → Nat → Nat → Int

/-- A move paired with its ordering score (`ordering.rs::ScoredAction`). -/
structure ScoredAction where
  act : Action
  val : Int
deriving DecidableEq, Repr

/-- The shared search state (`search/mod.rs::SearchInfo`).  `clockIdx` is a
modelling artifact: the position in the stream of wall-clock readings, so
that each call of `current_time_millis()` reads the next value of an
arbitrary ambient clock sequence. -/
structure SearchInfo where
  root_depth : Int
  best_move : Option Action
  history : History
  capture_history : History
  conthist : ContinuationHistory
  killers : Nat → Nat → Option Action
  pv_table : List (List ActionRecord)
  plies : Nat → PlyInfo
  quiet_lmr : Nat → Nat → Int
  noisy_lmr : Nat → Nat → Int
  hashes : List Nat
  mobility : Nat → Option (Nat × Team)
  tt : Nat → Option TtEntry
  tt_size : Nat
  nodes : Nat
  score : Int
  abort : Bool
  time_to_abort : Nat
  clockIdx : Nat

/-- The board library interface together with the ambient wall clock:
every operation the search core requests from outside (`chessing` and
`util::current_time_millis`), as pure functions of the opaque board
state.  `opp_team_at b sq` is the test
`BitBoard::index(sq).and(state.opposite_team()).is_set()`, `team_bb` and
`pieces_bb` expose the side-to-move and per-piece-type occupancy
bitboards (as raw bit sets) for `zugzwang_unlikely`, and `eval` is the
static evaluation as a function of the board, the recorded mobility
samples and the ply (its concrete chess instance is embedded separately
below). -/
structure Rules (B : Type) where
  list_actions : B → List Action
  is_legal : B → Bool
  play : B → Action → B
  play_null : B → B
  game_state : B → List Action → GameState
  hash : B → Nat
  history_stack : B → List ActionRecord
  moving_team : B → Team
  piece_at : B → Nat → Option Nat
  opp_team_at : B → Nat → Bool
  team_bb : B → Nat
  pieces_bb : B → Nat → Nat
  eval : B → (Nat → Option (Nat × Team)) → Nat → Int
  clock : Nat → Nat

/-- Piece material values, pawn..king (`eval/mod.rs::MATERIAL`). -/
def MATERIAL (i : Nat) : Int := ([100, 305, 333, 563, 950, 0] : List Int).getD i 0

/-- MVV-LVA ordering term (`ordering.rs::mvv_lva`). -/
def mvv_lva {B : Type} (R : Rules B) (board : B) (action : Action) : Int :=
  let score0 : Int := 1000
  let score1 :=
    if action.piece = 0 ∧ 3 ≤ action.info then
      score0 + (MATERIAL (action.info - 2) - MATERIAL 0)
    else score0
  match R.piece_at board action.«to» with
  | some victim_type =>
    match R.piece_at board action.«from» with
    | some attacker_type => score1 + (MATERIAL victim_type - MATERIAL attacker_type)
    | none => score1
  | none => score1

/-- Bound of every history cell (`ordering.rs::MAX_HISTORY`). -/
def MAX_HISTORY : Int := 300

/-- Lower bound of every history cell (`ordering.rs::MIN_HISTORY`). -/
def MIN_HISTORY : Int := -MAX_HISTORY

/-- History bonus at a cutoff (`ordering.rs::history_bonus`). -/
def history_bonus (depth : Int) : Int := depth * depth

/-- Gravity update of a butterfly history cell (`ordering.rs::update_history`). -/
def update_history (history : History) (team : Team) (action : Action) (bonus : Int) : History :=
  let clamped_bonus := rclamp bonus MIN_HISTORY MAX_HISTORY
  fun t f s =>
    if t = team ∧ f = action.«from» ∧ s = action.«to» then
      history t f s + (clamped_bonus - rdiv (history t f s * |clamped_bonus|) MAX_HISTORY)
    else history t f s

/-- Gravity update of a continuation-history cell (`ordering.rs::update_conthist`). -/
def update_conthist (conthist : ContinuationHistory) (prio : Team) (previous : Action)
    (team : Team) (action : Action) (bonus : Int) : ContinuationHistory :=
  let clamped_bonus := rclamp bonus MIN_HISTORY MAX_HISTORY
  fun pt pp ps t p s =>
    if pt = prio ∧ pp = previous.piece ∧ ps = previous.«to» ∧ t = team ∧ p = action.piece ∧ s = action.«to» then
      conthist pt pp ps t p s +
        (clamped_bonus - rdiv (conthist pt pp ps t p s * |clamped_bonus|) MAX_HISTORY)
    else conthist pt pp ps t p s

/-- Base priority of noisy moves (`ordering.rs::HIGH_PRIORITY`, `2i32.pow(28)`). -/
def HIGH_PRIORITY : Int := 2 ^ 28

/-- Number of killer slots (`ordering.rs::MAX_KILLERS`). -/
def MAX_KILLERS : Nat := 2

/-- Capture-history read for a noisy move (`ordering.rs::get_noisy_history`). -/
def get_noisy_history {B : Type} (R : Rules B) (board : B) (info : SearchInfo)
    (act : Action) : Int :=
  info.capture_history (R.moving_team board) act.«from» act.«to»

/-- Combined quiet-history read: butterfly history plus the 1-ply-back and
2-ply-back continuation-history cells (`ordering.rs::get_quiet_history`). -/
def get_quiet_history {B : Type} (R : Rules B) (board : B) (info : SearchInfo)
    (act : Action) (previous two_ply : Option Action) : Int :=
  let team := R.moving_team board
  let history := info.history team act.«from» act.«to»
  let one_ply_conthist :=
    match previous with
    | some previous => info.conthist team.next previous.piece previous.«to» team act.piece act.«to»
    | none => 0
  let two_ply_conthist :=
    match two_ply with
    | some previous => info.conthist team previous.piece previous.«to» team act.piece act.«to»
    | none => 0
  history + one_ply_conthist + two_ply_conthist

/-- History read used by the LMR formula (`ordering.rs::get_history`). -/
def get_history {B : Type} (R : Rules B) (board : B) (info : SearchInfo)
    (act : Action) (previous two_ply : Option Action) (noisy : Bool) : Int :=
  if noisy = true then get_noisy_history R board info act
  else get_quiet_history R board info act previous two_ply

/-- Chess noisiness test (`search/mod.rs::is_noisy_chess`): promotions and
en passant (pawn with `info ≥ 1`), else capture of an opposing piece. -/
def is_noisy_chess {B : Type} (R : Rules B) (board : B) (action : Action) : Bool :=
  if action.piece = 0 ∧ 1 ≤ action.info then true
  else R.opp_team_at board action.«to»

/-- Noisiness as the search uses it (`search/mod.rs::is_noisy`). -/
def is_noisy {B : Type} (R : Rules B) (board : B) (action : Action) : Bool :=
  is_noisy_chess R board action

/-- Ordering score of one move (`ordering.rs::score`): the remembered TT
move wins everything, noisy moves get `HIGH_PRIORITY` plus MVV-LVA plus
capture history, quiet moves get the combined quiet history plus killer
bonuses of `100 / (slot + 1)`. -/
def score {B : Type} (R : Rules B) (board : B) (info : SearchInfo) (ply : Nat)
    (act : Action) (previous two_ply found_best_move : Option Action) : Int :=
  if found_best_move = some act then HIGH_PRIORITY * 2
  else if is_noisy R board act = true then
    HIGH_PRIORITY + mvv_lva R board act + get_noisy_history R board info act
  else
    (List.range MAX_KILLERS).foldl
      (fun s i => if info.killers i ply = some act then s + rdiv 100 ((i : Int) + 1) else s)
      (get_quiet_history R board info act previous two_ply)

/-- Insertion into a descending-by-score list (helper for the sorts). -/
def insert_desc (x : ScoredAction) : List ScoredAction → List ScoredAction
  | [] => [x]
  | y :: ys => if y.val < x.val then x :: y :: ys else y :: insert_desc x ys

/-- Descending sort by score (model of `sort_unstable_by(|a, b| b.1.cmp(&a.1))`). -/
def sort_desc : List ScoredAction → List ScoredAction
  | [] => []
  | x :: xs => insert_desc x (sort_desc xs)

/-- Score and sort the move list for the main search (`ordering.rs::sort_actions`). -/
def sort_actions {B : Type} (R : Rules B) (board : B) (info : SearchInfo) (ply : Nat)
    (actions : List Action) (previous two_ply found_best_move : Option Action) :
    List ScoredAction :=
  sort_desc (actions.map fun act =>
    { act := act, val := score R board info ply act previous two_ply found_best_move })

/-- Score and sort captures for quiescence by MVV-LVA only
(`ordering.rs::sort_qs_actions`). -/
def sort_qs_actions {B : Type} (R : Rules B) (board : B) (_info : SearchInfo)
    (actions : List Action) : List ScoredAction :=
  sort_desc (actions.map fun act => { act := act, val := mvv_lva R board act })

/-- Score ceiling (`search/mod.rs::MAX`). -/
def MAX : Int := 1000000

/-- Score floor (`search/mod.rs::MIN`). -/
def MIN : Int := -1000000

/-- Write-or-append into a vector (`search/mod.rs::set_or_push`): sets in
range, pushes at the length, silently does nothing past the length. -/
def set_or_push {α : Type} (v : List α) (index : Nat) (item : α) : List α :=
  if index < v.length then v.set index item
  else if v.length = index then v ++ [item]
  else v

/-- Null-move precondition (`search/mod.rs::zugzwang_unlikely`): the side to
move owns at least one piece that is neither a king nor a pawn. -/
def zugzwang_unlikely {B : Type} (R : Rules B) (board : B) : Bool :=
  let king := R.pieces_bb board 5
  let pawns := R.pieces_bb board 0
  let team := R.team_bb board
  decide (team ≠ Nat.land team (Nat.lor king pawns))

/-- The inner loop of quiescence (`search/mod.rs::quiescence`, move loop):
play each scored capture, skip illegal ones, recurse negated, raise
`best`/`alpha`, stop on a beta cutoff.  `child` is the recursive
quiescence call at the remaining fuel. -/
def qs_loop {B : Type} (child : B → SearchInfo → Nat → Int → Int → Option (Int × SearchInfo))
    (R : Rules B) (board : B) (ply : Nat) (beta : Int) :
    List ScoredAction → SearchInfo → Int → Int → Option (Int × SearchInfo)
  | [], info, best, _alpha => some (best, info)
  | sa :: rest, info, best, alpha =>
    let act := sa.act
    let state := R.play board act
    if R.is_legal state = false then qs_loop child R board ply beta rest info best alpha
    else
      let info := { info with nodes := info.nodes + 1 }
      match child state info (ply + 1) (-beta) (-alpha) with
      | none => none
      | some (r, info) =>
        let sc := -r
        let best' := if sc > best then sc else best
        let alpha' := if sc > best ∧ sc > alpha then sc else alpha
        if sc ≥ beta then some (best', info)
        else qs_loop child R board ply beta rest info best' alpha'

/-- Quiescence search (`search/mod.rs::quiescence`): stand pat on the static
evaluation, record the mobility sample, then search the noisy moves in
MVV-LVA order.  Fuel-indexed; `none` is fuel exhaustion. -/
def quiescence {B : Type} (R : Rules B) :
    Nat → B → SearchInfo → Nat → Int → Int → Option (Int × SearchInfo)
  | 0, _, _, _, _, _ => none
  | fuel + 1, board, info, ply, alpha, beta =>
    let stand_pat := R.eval board info.mobility ply
    let best := stand_pat
    if stand_pat ≥ beta then some (stand_pat, info)
    else
      let alpha := if stand_pat > alpha then stand_pat else alpha
      let actions := R.list_actions board
      let info := { info with
        mobility := fun p =>
          if p = ply then some (actions.length, R.moving_team board) else info.mobility p }
      let captures := actions.filter (fun act => is_noisy R board act)
      let scored_captures := sort_qs_actions R board info captures
      qs_loop (fun b i p a bb => quiescence R fuel b i p a bb) R board ply beta
        scored_captures info best alpha

/-- Mutable state of the main move loop (the locals of `search`'s `for`). -/
structure LoopSt where
  alpha : Int
  best : Int
  best_move : Option Action
  bounds : Bounds
  quiets : List Action
  noisies : List Action
  legals : List Action
  legal_moves : Nat
  info : SearchInfo

/-- Copy the child principal variation one slot down
(`search/mod.rs` lines 369-385): each record of `pv[ply+1]` lands at
index `i + 1` of the row, stopping after a null record. -/
def pv_copy (dst : List ActionRecord) : List ActionRecord → Nat → List ActionRecord
  | [], _ => dst
  | ActionRecord.null :: _, i => set_or_push dst (i + 1) ActionRecord.null
  | ActionRecord.action a :: rest, i =>
    pv_copy (set_or_push dst (i + 1) (ActionRecord.action a)) rest (i + 1)

/-- Splice the move that raised alpha into the PV table
(`search/mod.rs` lines 366-387): copy `pv[ply+1]` after the head, then
write the move at index 0. -/
def pv_update (info : SearchInfo) (ply : Nat) (act : Action) : SearchInfo :=
  let dst := info.pv_table.getD ply []
  let dst :=
    match info.pv_table.get? (ply + 1) with
    | some pv_moves => pv_copy dst pv_moves 0
    | none => dst
  let dst := set_or_push dst 0 (ActionRecord.action act)
  { info with pv_table := info.pv_table.set ply dst }

/-- The bookkeeping run on a beta cutoff (`search/mod.rs` lines 391-427):
history, continuation-history and killer updates on a quiet cutoff,
capture-history updates on a noisy one.  The killer rotation is written
for the source's `MAX_KILLERS = 2`. -/
def cutoff_updates (info : SearchInfo) (team : Team) (act : Action) (depth : Int)
    (ply : Nat) (previous two_ply : Option Action) (quiets noisies : List Action)
    (noisy : Bool) : SearchInfo :=
  if noisy = false then
    let info := { info with history := update_history info.history team act (history_bonus depth) }
    let info := { info with
      history := quiets.foldl
        (fun h q => update_history h team q (-history_bonus depth)) info.history }
    let info :=
      match previous with
      | some prev =>
        let ch := update_conthist info.conthist team.next prev team act (history_bonus depth)
        let ch := quiets.foldl
          (fun c q => update_conthist c team.next prev team q (-history_bonus depth)) ch
        { info with conthist := ch }
      | none => info
    let info :=
      match two_ply with
      | some prev =>
        let ch := update_conthist info.conthist team prev team act (history_bonus depth)
        let ch := quiets.foldl
          (fun c q => update_conthist c team prev team q (-history_bonus depth)) ch
        { info with conthist := ch }
      | none => info
    if info.killers 0 ply = some act then info
    else
      let k := info.killers
      { info with killers := fun s p =>
          (if p = ply then (if s = 0 then some act else if s = 1 then k 0 p else k s p)
           else k s p) }
  else
    let info := { info with
      capture_history := update_history info.capture_history team act (history_bonus depth) }
    { info with
      capture_history := noisies.foldl
        (fun h q => update_history h team q (-history_bonus depth)) info.capture_history }

/-- The LMR reduction of one move (`search/mod.rs` lines 312-327): table
value minus the clamped history, divided by 256, floored at 0; no
reduction before the third legal move. -/
def lmr_r {B : Type} (R : Rules B) (board : B) (info : SearchInfo) (act : Action)
    (previous two_ply : Option Action) (noisy : Bool) (depth : Int) (index : Nat) : Int :=
  if 2 ≤ index then
    let r0 := if noisy = true then info.noisy_lmr index depth.toNat
              else info.quiet_lmr index depth.toNat
    let hist := get_history R board info act previous two_ply noisy
    max (rdiv (r0 - rclamp hist (-512) 512) 256) 0
  else 0

/-- The first stage of the PVS recursion for one move (`search/mod.rs`
lines 341-351): the reduced null-window search with its re-search, or the
plain null-window search, or nothing (leaving `score = MIN`) for the first
move of a PV node. -/
def pvs_first {B : Type}
    (child : B → SearchInfo → Int → Nat → Int → Int → Bool → Option (Int × SearchInfo))
    (played : B) (info : SearchInfo) (new_depth r : Int) (ply : Nat) (alpha : Int)
    (lmr : Bool) (is_pv : Bool) (index : Nat) : Option (Int × SearchInfo) :=
  if lmr = true then
    let reduced := new_depth - r
    match child played info reduced (ply + 1) (-alpha - 1) (-alpha) false with
    | none => none
    | some (r1, i1) =>
      if -r1 > alpha ∧ reduced < new_depth then
        match child played i1 new_depth (ply + 1) (-alpha - 1) (-alpha) false with
        | none => none
        | some (r2, i2) => some (-r2, i2)
      else some (-r1, i1)
  else if is_pv = false ∨ index > 0 then
    match child played info new_depth (ply + 1) (-alpha - 1) (-alpha) false with
    | none => none
    | some (r1, i1) => some (-r1, i1)
  else some (MIN, info)

/-- The second stage of the PVS recursion (`search/mod.rs` lines 353-355):
the full-window re-search of a PV move. -/
def pvs_second {B : Type}
    (child : B → SearchInfo → Int → Nat → Int → Int → Bool → Option (Int × SearchInfo))
    (played : B) (i1 : SearchInfo) (score1 new_depth : Int) (ply : Nat)
    (alpha beta : Int) (is_pv : Bool) (index : Nat) : Option (Int × SearchInfo) :=
  if is_pv = true ∧ (index = 0 ∨ score1 > alpha) then
    match child played i1 new_depth (ply + 1) (-beta) (-alpha) is_pv with
    | none => none
    | some (r2, i2) => some (-r2, i2)
  else some (score1, i1)

/-- The main move loop of `search` (`search/mod.rs` lines 289-437): build the
legal-move list, apply late-move pruning, the LMR reduction formula and
futility pruning, run the PVS recursion through `child` (via `pvs_first`
and `pvs_second`), update best/alpha/PV, and on a beta cutoff run the
history bookkeeping and stop. -/
def search_loop {B : Type}
    (child : B → SearchInfo → Int → Nat → Int → Int → Bool → Option (Int × SearchInfo))
    (R : Rules B) (board : B) (depth : Int) (ply : Nat) (beta : Int) (is_pv : Bool)
    (ev : Int) (previous two_ply : Option Action) (root_node : Bool) :
    List ScoredAction → LoopSt → Option LoopSt
  | [], st => some st
  | sa :: rest, st =>
    let act := sa.act
    let probe := R.play board act
    if R.is_legal probe = false then
      search_loop child R board depth ply beta is_pv ev previous two_ply root_node rest st
    else
      let st := { st with legals := st.legals ++ [act], legal_moves := st.legal_moves + 1 }
      let index := st.legal_moves - 1
      let noisy := is_noisy R board act
      let team := R.moving_team board
      if index > 3 + 2 * (depth * depth).toNat ∧ noisy = false then
        search_loop child R board depth ply beta is_pv ev previous two_ply root_node rest st
      else
        let r : Int := lmr_r R board st.info act previous two_ply noisy depth index
        let lmr := decide (r > 0)
        if root_node = false ∧ noisy = false ∧ depth - r ≤ 8 ∧ ev + 300 + 75 * depth ≤ st.alpha then
          search_loop child R board depth ply beta is_pv ev previous two_ply root_node rest st
        else
          let played := R.play board act
          let info := { st.info with nodes := st.info.nodes + 1 }
          let new_depth := depth - 1
          match pvs_first child played info new_depth r ply st.alpha lmr is_pv index with
          | none => none
          | some (score1, i1) =>
            match pvs_second child played i1 score1 new_depth ply st.alpha beta is_pv index with
            | none => none
            | some (sc, i2) =>
              let improved := decide (sc > st.best)
              let raised := decide (sc > st.alpha)
              let i3 := if improved = true ∧ raised = true ∧ is_pv = true then pv_update i2 ply act else i2
              let st := { st with
                best := if improved = true then sc else st.best,
                best_move := if improved = true then some act else st.best_move,
                bounds := if improved = true ∧ raised = true then Bounds.exact else st.bounds,
                alpha := if improved = true ∧ raised = true then sc else st.alpha,
                info := i3 }
              if sc ≥ beta then
                some { st with
                  bounds := Bounds.lower,
                  info := cutoff_updates st.info team act depth ply previous two_ply
                    st.quiets st.noisies noisy }
              else
                let st :=
                  if noisy = true then { st with noisies := st.noisies ++ [act] }
                  else { st with quiets := st.quiets ++ [act] }
                search_loop child R board depth ply beta is_pv ev previous two_ply root_node rest st

/-- Everything of `search` after the null-move block (`search/mod.rs` lines
275-473): push the current hash, sort the moves, run the move loop, settle
terminal game states, bail out (without popping) on abort, write the root
best move and the TT entry, pop the hash and return `best`. -/
def search_rest {B : Type}
    (child : B → SearchInfo → Int → Nat → Int → Int → Bool → Option (Int × SearchInfo))
    (R : Rules B) (board : B) (info : SearchInfo) (depth : Int) (ply : Nat)
    (alpha beta : Int) (is_pv : Bool) (ev : Int) (hash : Nat) (tt_index : Nat)
    (previous two_ply found_best_move : Option Action) (actions : List Action) :
    Option (Int × SearchInfo) :=
  let info := { info with hashes := hash :: info.hashes }
  let scored_actions := sort_actions R board info ply actions previous two_ply found_best_move
  let root_node := decide (depth = info.root_depth)
  let st0 : LoopSt :=
    { alpha := alpha, best := MIN, best_move := none, bounds := Bounds.upper,
      quiets := [], noisies := [], legals := [], legal_moves := 0, info := info }
  match search_loop child R board depth ply beta is_pv ev previous two_ply root_node
      scored_actions st0 with
  | none => none
  | some st =>
    match R.game_state board st.legals with
    | GameState.win _ => some (MIN + (ply : Int), { st.info with hashes := st.info.hashes.tail })
    | GameState.draw => some (0, { st.info with hashes := st.info.hashes.tail })
    | GameState.ongoing =>
      if st.info.abort = true then some (0, st.info)
      else
        let info := st.info
        let info :=
          if root_node = true ∧ st.best_move.isSome = true then { info with best_move := st.best_move }
          else info
        let info := { info with
          tt := fun i =>
            if i = tt_index then
              some { hash := hash, best_move := st.best_move, score := st.best,
                     depth := depth, bounds := st.bounds }
            else info.tt i }
        some (st.best, { info with hashes := info.hashes.tail })

/-- The null-move block and hand-off to the move loop (`search/mod.rs`
lines 250-275 and onward): try the reduced null-window null-move search
for eligible non-PV nodes, return early on its fail-high, otherwise fall
through to `search_rest`. -/
def search_main {B : Type}
    (child : B → SearchInfo → Int → Nat → Int → Int → Bool → Option (Int × SearchInfo))
    (R : Rules B) (board : B) (info : SearchInfo) (depth : Int) (ply : Nat)
    (alpha beta : Int) (is_pv : Bool) (ev : Int) (hash : Nat) (tt_index : Nat)
    (previous two_ply found_best_move : Option Action) (actions : List Action)
    (null_last_move : Bool) : Option (Int × SearchInfo) :=
  if is_pv = false ∧ depth ≥ 3 ∧ zugzwang_unlikely R board = true ∧
      null_last_move = false then
    let reduction := 3 + rdiv depth 5
    let nm_depth := depth - reduction
    let state := R.play_null board
    if R.is_legal state = true then
      match child state info nm_depth ply (-beta) (-beta + 1) is_pv with
      | none => none
      | some (r0, info) =>
        let null_score := -r0
        if null_score ≥ beta then
          some ((if null_score > rdiv MAX 2 then beta else null_score), info)
        else
          search_rest child R board info depth ply alpha beta is_pv ev hash tt_index
            previous two_ply found_best_move actions
    else
      search_rest child R board info depth ply alpha beta is_pv ev hash tt_index
        previous two_ply found_best_move actions
  else
    search_rest child R board info depth ply alpha beta is_pv ev hash tt_index
      previous two_ply found_best_move actions

/-- The alpha-beta negamax search (`search/mod.rs::search`), fuel-indexed.
In order: the clock poll and abort bail-out, the quiescence hand-off at
`depth ≤ 0`, static evaluation and reverse futility pruning, the
repetition check, the TT probe, the null-move search, then `search_rest`.
The source also computes a local `improving` here that it never reads. -/
def search {B : Type} (R : Rules B) :
    Nat → B → SearchInfo → Int → Nat → Int → Int → Bool → Option (Int × SearchInfo)
  | 0, _, _, _, _, _, _, _ => none
  | fuel + 1, board, info, depth, ply, alpha, beta, is_pv =>
    let info :=
      if depth ≥ 4 ∧ info.abort = false then
        { info with abort := decide (R.clock info.clockIdx ≥ info.time_to_abort),
                    clockIdx := info.clockIdx + 1 }
      else info
    if info.abort = true then some (0, info)
    else if depth ≤ 0 then quiescence R fuel board info ply alpha beta
    else
      let ev := R.eval board info.mobility ply
      let info := { info with
        plies := fun p => if p = ply then { eval := ev } else info.plies p }
      if is_pv = false ∧ depth ≤ 3 ∧ ev - 100 * depth ≥ beta then some (ev, info)
      else
        let hash := R.hash board
        if hash ∈ info.hashes ∧ ply > 0 then some (0, info)
        else
          let tt_index := hash % info.tt_size
          let tt_hit := info.tt tt_index
          let found_best_move : Option Action :=
            match tt_hit with
            | some entry => if hash = entry.hash then entry.best_move else none
            | none => none
          let tt_cut : Option Int :=
            match tt_hit with
            | some entry =>
              if hash = entry.hash then
                let is_in_bounds :=
                  match entry.bounds with
                  | Bounds.exact => true
                  | Bounds.lower => decide (entry.score ≥ beta)
                  | Bounds.upper => decide (entry.score < alpha)
                if entry.depth ≥ depth ∧ is_in_bounds = true ∧ is_pv = false then
                  some entry.score
                else none
              else none
            | none => none
          match tt_cut with
          | some s => some (s, info)
          | none =>
            let actions := R.list_actions board
            let info := { info with
              mobility := fun p =>
                if p = ply then some (actions.length, R.moving_team board)
                else info.mobility p }
            let hist := R.history_stack board
            let two_ply : Option Action :=
              if 2 ≤ hist.length then
                match hist.get? (hist.length - 2) with
                | some (ActionRecord.action a) => some a
                | _ => none
              else none
            let previous : Option Action :=
              match hist.getLast? with
              | some (ActionRecord.action a) => some a
              | _ => none
            let null_last_move : Bool :=
              match hist.getLast? with
              | some ActionRecord.null => true
              | _ => false
            search_main (fun b i d p a bb pv => search R fuel b i d p a bb pv)
              R board info depth ply alpha beta is_pv ev hash tt_index
              previous two_ply found_best_move actions null_last_move


/-- BitBoard intersection as the evaluation model uses it: bitboards are
lists of occupied square indices, `band` is `BitBoard::and`. -/
def band (a b : List Nat) : List Nat := a.filter (fun sq => b.contains sq)

/-- BitBoard population count (`BitBoard::count`). -/
def bcount (a : List Nat) : Nat := a.length

/-- The slice of board state the static evaluation reads
(`board.state` in `eval/mod.rs`): the per-piece-type occupancy sets
(pawn..king at indices 0..5) and the two colour occupancy sets. -/
structure EvalBoard where
  pieces : Nat → List Nat
  white : List Nat
  black : List Nat
  moving_team : Team

/-- Side-to-move sign (`eval/mod.rs::team_to_move`). -/
def team_to_move (board : EvalBoard) : Int :=
  match board.moving_team with
  | Team.white => 1
  | Team.black => -1

/-- Pawn material value (`eval/mod.rs::PAWN`). -/
def PAWN : Int := 100

/-- Knight material value (`eval/mod.rs::KNIGHT`). -/
def KNIGHT : Int := 305

/-- Bishop material value (`eval/mod.rs::BISHOP`). -/
def BISHOP : Int := 333

/-- Rook material value (`eval/mod.rs::ROOK`). -/
def ROOK : Int := 563

/-- Queen material value (`eval/mod.rs::QUEEN`). -/
def QUEEN : Int := 950

/-- Mobility weight (`eval/mod.rs::MOBILITY`).  The source sets it to 3. -/
def MOBILITY : Int := 3

/-- Modelled from the spec: the file `src/eval/psqt.rs` (declared by
`mod psqt;` and imported by `eval/mod.rs`) is not among the provided
sources.  Per the spec the tables are the PeSTO middlegame/endgame
piece-square tables with the black tables square-flipped via `sq XOR 56`
for white; the middlegame values below also appear verbatim in the
provided `src/eval.rs`.  Index 0 is a1; the literals are written from
the eighth rank down, as in the source.  Black pawn middlegame table. -/
def PAWN_MG (sq : Nat) : Int :=
  ([0, 0, 0, 0, 0, 0, 0, 0,
    98, 134, 61, 95, 68, 126, 34, -11,
    -6, 7, 26, 31, 65, 56, 25, -20,
    -14, 13, 6, 21, 23, 12, 17, -23,
    -27, -2, -5, 12, 17, 6, 10, -25,
    -26, -4, -4, -10, 3, 3, 33, -12,
    -35, -1, -20, -23, -15, 24, 38, -22,
    0, 0, 0, 0, 0, 0, 0, 0] : List Int).getD sq 0

/-- Modelled from the spec: black knight middlegame PSQT (see `PAWN_MG`). -/
def KNIGHT_MG (sq : Nat) : Int :=
  ([-167, -89, -34, -49, 61, -97, -15, -107,
    -73, -41, 72, 36, 23, 62, 7, -17,
    -47, 60, 37, 65, 84, 129, 73, 44,
    -9, 17, 19, 53, 37, 69, 18, 22,
    -13, 4, 16, 13, 28, 19, 21, -8,
    -23, -9, 12, 10, 19, 17, 25, -16,
    -29, -53, -12, -3, -1, 18, -14, -19,
    -105, -21, -58, -33, -17, -28, -19, -23] : List Int).getD sq 0

/-- Modelled from the spec: black bishop middlegame PSQT (see `PAWN_MG`). -/
def BISHOP_MG (sq : Nat) : Int :=
  ([-29, 4, -82, -37, -25, -42, 7, -8,
    -26, 16, -18, -13, 30, 59, 18, -47,
    -16, 37, 43, 40, 35, 50, 37, -2,
    -4, 5, 19, 50, 37, 37, 7, -2,
    -6, 13, 13, 26, 34, 12, 10, 4,
    0, 15, 15, 15, 14, 27, 18, 10,
    4, 15, 16, 0, 7, 21, 33, 1,
    -33, -3, -14, -21, -13, -12, -39, -21] : List Int).getD sq 0

/-- Modelled from the spec: black rook middlegame PSQT (see `PAWN_MG`). -/
def ROOK_MG (sq : Nat) : Int :=
  ([32, 42, 32, 51, 63, 9, 31, 43,
    27, 32, 58, 62, 80, 67, 26, 44,
    -5, 19, 26, 36, 17, 45, 61, 16,
    -24, -11, 7, 26, 24, 35, -8, -20,
    -36, -26, -12, -1, 9, -7, 6, -23,
    -45, -25, -16, -17, 3, 0, -5, -33,
    -44, -16, -20, -9, -1, 11, -6, -71,
    -19, -13, 1, 17, 16, 7, -37, -26] : List Int).getD sq 0

/-- Modelled from the spec: black queen middlegame PSQT (see `PAWN_MG`). -/
def QUEEN_MG (sq : Nat) : Int :=
  ([-28, 0, 29, 12, 59, 44, 43, 45,
    -24, -39, -5, 1, -16, 57, 28, 54,
    -13, -17, 7, 8, 29, 56, 47, 57,
    -27, -27, -16, -16, -1, 17, -2, 1,
    -9, -26, -9, -10, -2, -4, 3, -3,
    -14, 2, -11, -2, -5, 2, 14, 5,
    -35, -8, 11, 2, 8, 15, -3, 1,
    -1, -18, -9, 10, -15, -25, -31, -50] : List Int).getD sq 0

/-- Modelled from the spec: black king middlegame PSQT (see `PAWN_MG`). -/
def KING_MG (sq : Nat) : Int :=
  ([-65, 23, 16, -15, -56, -34, 2, 13,
    29, -1, -20, -7, -8, -4, -38, -29,
    -9, 24, 2, -16, -20, 6, 22, -22,
    -17, -20, -12, -27, -30, -25, -14, -36,
    -49, -1, -27, -39, -46, -44, -33, -51,
    -14, -14, -22, -46, -44, -30, -15, -27,
    1, 7, -8, -64, -43, -16, 9, 8,
    -15, 36, 12, -54, 8, -28, 24, 14] : List Int).getD sq 0

/-- Modelled from the spec: black pawn endgame PSQT (see `PAWN_MG`). -/
def PAWN_EG (sq : Nat) : Int :=
  ([0, 0, 0, 0, 0, 0, 0, 0,
    178, 173, 158, 134, 147, 132, 165, 187,
    94, 100, 85, 67, 56, 53, 82, 84,
    32, 24, 13, 5, -2, 4, 17, 17,
    13, 9, -3, -7, -7, -8, 3, -1,
    4, 7, -6, 1, 0, -5, -1, -8,
    13, 8, 8, 10, 13, 0, 2, -7,
    0, 0, 0, 0, 0, 0, 0, 0] : List Int).getD sq 0

/-- Modelled from the spec: black knight endgame PSQT (see `PAWN_MG`). -/
def KNIGHT_EG (sq : Nat) : Int :=
  ([-58, -38, -13, -28, -31, -27, -63, -99,
    -25, -8, -25, -2, -9, -25, -24, -52,
    -24, -20, 10, 9, -1, -9, -19, -41,
    -17, 3, 22, 22, 22, 11, 8, -18,
    -18, -6, 16, 25, 16, 17, 4, -18,
    -23, -3, -1, 15, 10, -3, -20, -22,
    -42, -20, -10, -5, -2, -20, -23, -44,
    -29, -51, -23, -15, -22, -18, -50, -64] : List Int).getD sq 0

/-- Modelled from the spec: black bishop endgame PSQT (see `PAWN_MG`). -/
def BISHOP_EG (sq : Nat) : Int :=
  ([-14, -21, -11, -8, -7, -9, -17, -24,
    -8, -4, 7, -12, -3, -13, -4, -14,
    2, -8, 0, -1, -2, 6, 0, 4,
    -3, 9, 12, 9, 14, 10, 3, 2,
    -6, 3, 13, 19, 7, 10, -3, -9,
    -12, -3, 8, 10, 13, 3, -7, -15,
    -14, -18, -7, -1, 4, -9, -15, -27,
    -23, -9, -23, -5, -9, -16, -5, -17] : List Int).getD sq 0

/-- Modelled from the spec: black rook endgame PSQT (see `PAWN_MG`). -/
def ROOK_EG (sq : Nat) : Int :=
  ([13, 10, 18, 15, 12, 12, 8, 5,
    11, 13, 13, 11, -3, 3, 8, 3,
    7, 7, 7, 5, 4, -3, -5, -3,
    4, 3, 13, 1, 2, 1, -1, 2,
    3, 5, 8, 4, -5, -6, -8, -11,
    -4, 0, -5, -1, -7, -12, -8, -16,
    -6, -6, 0, 2, -9, -9, -11, -3,
    -9, 2, 3, -1, -5, -13, 4, -20] : List Int).getD sq 0

/-- Modelled from the spec: black queen endgame PSQT (see `PAWN_MG`). -/
def QUEEN_EG (sq : Nat) : Int :=
  ([-9, 22, 22, 27, 27, 19, 10, 20,
    -17, 20, 32, 41, 58, 25, 30, 0,
    -20, 6, 9, 49, 47, 35, 19, 9,
    3, 22, 24, 45, 57, 40, 57, 36,
    -18, 28, 19, 47, 31, 34, 39, 23,
    -16, -27, 15, 6, 9, 17, 10, 5,
    -22, -23, -30, -16, -16, -23, -36, -32,
    -33, -28, -22, -43, -5, -32, -20, -41] : List Int).getD sq 0

/-- Modelled from the spec: black king endgame PSQT (see `PAWN_MG`). -/
def KING_EG (sq : Nat) : Int :=
  ([-74, -35, -18, -18, -11, 15, 4, -17,
    -12, 17, 14, 17, 17, 38, 23, 11,
    10, 17, 23, 15, 20, 45, 44, 13,
    -8, 22, 24, 27, 26, 33, 26, 3,
    -18, -4, 21, 24, 27, 23, 9, -11,
    -19, -3, 11, 21, 23, 16, 7, -9,
    -27, -11, 4, 13, 14, 4, -5, -17,
    -53, -34, -21, -11, -28, -14, -24, -43] : List Int).getD sq 0

/-- Square reflection between the colours (`flip_sq` in the source: `sq XOR 56`). -/
def flip_sq (sq : Nat) : Nat := sq ^^^ 56

/-- White pawn middlegame PSQT: the black table square-flipped. -/
def PAWN_MG_WHITE (sq : Nat) : Int := PAWN_MG (flip_sq sq)

/-- White knight middlegame PSQT. -/
def KNIGHT_MG_WHITE (sq : Nat) : Int := KNIGHT_MG (flip_sq sq)

/-- White bishop middlegame PSQT. -/
def BISHOP_MG_WHITE (sq : Nat) : Int := BISHOP_MG (flip_sq sq)

/-- White rook middlegame PSQT. -/
def ROOK_MG_WHITE (sq : Nat) : Int := ROOK_MG (flip_sq sq)

/-- White queen middlegame PSQT. -/
def QUEEN_MG_WHITE (sq : Nat) : Int := QUEEN_MG (flip_sq sq)

/-- White king middlegame PSQT. -/
def KING_MG_WHITE (sq : Nat) : Int := KING_MG (flip_sq sq)

/-- White pawn endgame PSQT. -/
def PAWN_EG_WHITE (sq : Nat) : Int := PAWN_EG (flip_sq sq)

/-- White knight endgame PSQT. -/
def KNIGHT_EG_WHITE (sq : Nat) : Int := KNIGHT_EG (flip_sq sq)

/-- White bishop endgame PSQT. -/
def BISHOP_EG_WHITE (sq : Nat) : Int := BISHOP_EG (flip_sq sq)

/-- White rook endgame PSQT. -/
def ROOK_EG_WHITE (sq : Nat) : Int := ROOK_EG (flip_sq sq)

/-- White queen endgame PSQT. -/
def QUEEN_EG_WHITE (sq : Nat) : Int := QUEEN_EG (flip_sq sq)

/-- White king endgame PSQT. -/
def KING_EG_WHITE (sq : Nat) : Int := KING_EG (flip_sq sq)

/-- Sum of a table over a square set (the `for sq in bb.iter()` accumulations). -/
def psqt_sum (squares : List Nat) (tbl : Nat → Int) : Int := (squares.map tbl).sum

/-- Middlegame PSQT balance (`eval/mod.rs::compute_mg`): white entries add,
black entries subtract. -/
def compute_mg (wp bp wn bn wb bb wr br wq bq wk bk : List Nat) : Int :=
  psqt_sum wp PAWN_MG_WHITE - psqt_sum bp PAWN_MG
  + psqt_sum wn KNIGHT_MG_WHITE - psqt_sum bn KNIGHT_MG
  + psqt_sum wb BISHOP_MG_WHITE - psqt_sum bb BISHOP_MG
  + psqt_sum wr ROOK_MG_WHITE - psqt_sum br ROOK_MG
  + psqt_sum wq QUEEN_MG_WHITE - psqt_sum bq QUEEN_MG
  + psqt_sum wk KING_MG_WHITE - psqt_sum bk KING_MG

/-- Endgame PSQT balance (`eval/mod.rs::compute_eg`). -/
def compute_eg (wp bp wn bn wb bb wr br wq bq wk bk : List Nat) : Int :=
  psqt_sum wp PAWN_EG_WHITE - psqt_sum bp PAWN_EG
  + psqt_sum wn KNIGHT_EG_WHITE - psqt_sum bn KNIGHT_EG
  + psqt_sum wb BISHOP_EG_WHITE - psqt_sum bb BISHOP_EG
  + psqt_sum wr ROOK_EG_WHITE - psqt_sum br ROOK_EG
  + psqt_sum wq QUEEN_EG_WHITE - psqt_sum bq QUEEN_EG
  + psqt_sum wk KING_EG_WHITE - psqt_sum bk KING_EG

/-- The mobility walk of `eval` (`eval/mod.rs` lines 154-172): scan from
`ply - 1` down to 0, keep the first nonzero count seen for each side,
stop once both are set. -/
def mobility_walk (mobility : Nat → Option (Nat × Team)) :
    Nat → Nat → Nat → Nat × Nat
  | 0, w, b => (w, b)
  | p + 1, w, b =>
    if w > 0 ∧ b > 0 then (w, b)
    else
      match mobility p with
      | some (m, Team.white) => mobility_walk mobility p (if w = 0 then m else w) b
      | some (m, Team.black) => mobility_walk mobility p w (if b = 0 then m else b)
      | none => mobility_walk mobility p w b

/-- The static evaluation (`eval/mod.rs::eval`): material balance, the
material-threshold tapered PSQT term, and the mobility bonus, all from
the side to move's perspective. -/
def eval (board : EvalBoard) (mobility : Nat → Option (Nat × Team)) (ply : Nat) : Int :=
  let pawns := board.pieces 0
  let knights := board.pieces 1
  let bishops := board.pieces 2
  let rooks := board.pieces 3
  let queens := board.pieces 4
  let kings := board.pieces 5
  let white := board.white
  let black := board.black
  let white_pawns := band pawns white
  let black_pawns := band pawns black
  let white_knights := band knights white
  let black_knights := band knights black
  let white_bishops := band bishops white
  let black_bishops := band bishops black
  let white_rooks := band rooks white
  let black_rooks := band rooks black
  let white_queens := band queens white
  let black_queens := band queens black
  let white_king := band kings white
  let black_king := band kings black
  let white_material :=
    (bcount white_pawns : Int) * PAWN + (bcount white_knights : Int) * KNIGHT
    + (bcount white_bishops : Int) * BISHOP + (bcount white_rooks : Int) * ROOK
    + (bcount white_queens : Int) * QUEEN
  let black_material :=
    (bcount black_pawns : Int) * PAWN + (bcount black_knights : Int) * KNIGHT
    + (bcount black_bishops : Int) * BISHOP + (bcount black_rooks : Int) * ROOK
    + (bcount black_queens : Int) * QUEEN
  let score := white_material - black_material
  let total_material := white_material + black_material
  let score := score +
    (if total_material > 5000 then
      compute_mg white_pawns black_pawns white_knights black_knights white_bishops black_bishops
        white_rooks black_rooks white_queens black_queens white_king black_king
     else if total_material < 2500 then
      compute_eg white_pawns black_pawns white_knights black_knights white_bishops black_bishops
        white_rooks black_rooks white_queens black_queens white_king black_king
     else
      let mg := compute_mg white_pawns black_pawns white_knights black_knights white_bishops
        black_bishops white_rooks black_rooks white_queens black_queens white_king black_king
      let eg := compute_eg white_pawns black_pawns white_knights black_knights white_bishops
        black_bishops white_rooks black_rooks white_queens black_queens white_king black_king
      let weight := total_material - 2500
      rdiv (mg * weight + eg * (2500 - weight)) 2500)
  let counts := mobility_walk mobility ply 0 0
  let mobility_bonus := MOBILITY * ((counts.1 : Int) - (counts.2 : Int))
  (score + mobility_bonus) * team_to_move board

/-- White material total of a board, as `eval` computes it (statement helper). -/
def white_material (board : EvalBoard) : Int :=
  (bcount (band (board.pieces 0) board.white) : Int) * PAWN
  + (bcount (band (board.pieces 1) board.white) : Int) * KNIGHT
  + (bcount (band (board.pieces 2) board.white) : Int) * BISHOP
  + (bcount (band (board.pieces 3) board.white) : Int) * ROOK
  + (bcount (band (board.pieces 4) board.white) : Int) * QUEEN

/-- Black material total of a board, as `eval` computes it (statement helper). -/
def black_material (board : EvalBoard) : Int :=
  (bcount (band (board.pieces 0) board.black) : Int) * PAWN
  + (bcount (band (board.pieces 1) board.black) : Int) * KNIGHT
  + (bcount (band (board.pieces 2) board.black) : Int) * BISHOP
  + (bcount (band (board.pieces 3) board.black) : Int) * ROOK
  + (bcount (band (board.pieces 4) board.black) : Int) * QUEEN

/-- Combined material on the board (statement helper). -/
def total_material (board : EvalBoard) : Int := white_material board + black_material board

/-- The middlegame PSQT balance of a board (statement helper): `compute_mg`
applied to the colour-filtered piece sets exactly as `eval` builds them. -/
def psqt_mg (board : EvalBoard) : Int :=
  compute_mg (band (board.pieces 0) board.white) (band (board.pieces 0) board.black)
    (band (board.pieces 1) board.white) (band (board.pieces 1) board.black)
    (band (board.pieces 2) board.white) (band (board.pieces 2) board.black)
    (band (board.pieces 3) board.white) (band (board.pieces 3) board.black)
    (band (board.pieces 4) board.white) (band (board.pieces 4) board.black)
    (band (board.pieces 5) board.white) (band (board.pieces 5) board.black)

/-- The endgame PSQT balance of a board (statement helper). -/
def psqt_eg (board : EvalBoard) : Int :=
  compute_eg (band (board.pieces 0) board.white) (band (board.pieces 0) board.black)
    (band (board.pieces 1) board.white) (band (board.pieces 1) board.black)
    (band (board.pieces 2) board.white) (band (board.pieces 2) board.black)
    (band (board.pieces 3) board.white) (band (board.pieces 3) board.black)
    (band (board.pieces 4) board.white) (band (board.pieces 4) board.black)
    (band (board.pieces 5) board.white) (band (board.pieces 5) board.black)

/-- The tapering `eval` actually performs on the PSQT balances: pure
middlegame above 5000 points of material, pure endgame below 2500, and
a linear blend over 2500 in between. -/
def material_taper (mg eg tm : Int) : Int :=
  if tm > 5000 then mg
  else if tm < 2500 then eg
  else rdiv (mg * (tm - 2500) + eg * (2500 - (tm - 2500))) 2500

/-- Modelled from the spec: `PHASE_VALUE[piece]` is 0,1,1,2,4,0 for
pawn..king.  No such table exists anywhere in the provided sources. -/
def PHASE_VALUE (i : Nat) : Int := ([0, 1, 1, 2, 4, 0] : List Int).getD i 0

/-- Modelled from the spec: the PeSTO game phase, each piece on the board
adding its `PHASE_VALUE`. -/
def pesto_phase (board : EvalBoard) : Int :=
  (List.range 6).foldl (fun acc i => acc + (bcount (board.pieces i) : Int) * PHASE_VALUE i) 0

/-- Modelled from the spec: the PSQT term claim C1 asserts, with
`mg_phase = min(phase, 24)`, `eg_phase = 24 - mg_phase` and the score
`(mg * mg_phase + eg * eg_phase) / 24`. -/
def pesto_psqt (board : EvalBoard) : Int :=
  let phase := pesto_phase board
  let mg_phase := min phase 24
  let eg_phase := 24 - mg_phase
  rdiv (psqt_mg board * mg_phase + psqt_eg board * eg_phase) 24

/-- The most recent nonzero pseudo-legal move count recorded for `side`
strictly before `ply` (the specification's description of the mobility
walk, for claims C1 and C5). -/
def most_recent_count (mobility : Nat → Option (Nat × Team)) (side : Team) : Nat → Nat
  | 0 => 0
  | p + 1 =>
    match mobility p with
    | some (m, t) => if t = side ∧ m ≠ 0 then m else most_recent_count mobility side p
    | none => most_recent_count mobility side p

/-- A `go` option as `main.rs` matches it; variants the dispatcher ignores
are collapsed into `other`. -/
inductive GoOption where
  | wtime (v : Nat)
  | btime (v : Nat)
  | winc (v : Nat)
  | binc (v : Nat)
  | movetime (v : Nat)
  | other
deriving DecidableEq, Repr

/-- One arm of the `go` option loop (`main.rs` lines 32-60): add this
option's contribution to the soft/hard accumulator.  Note the source adds
`binc / 4` without checking the side to move, unlike every other clock
option. -/
def go_step (team : Team) (acc : Nat × Nat) : GoOption → Nat × Nat
  | GoOption.btime t => if team = Team.black then (acc.1 + t / 40, acc.2 + t / 9) else acc
  | GoOption.binc i => (acc.1 + i / 4, acc.2)
  | GoOption.wtime t => if team = Team.white then (acc.1 + t / 40, acc.2 + t / 9) else acc
  | GoOption.winc i => if team = Team.white then (acc.1 + i / 4, acc.2) else acc
  | GoOption.movetime t => (acc.1 + t / 2, acc.2 + t)
  | GoOption.other => acc

/-- The `go` time budgeting (`main.rs` lines 27-64): fold the options
through `go_step`, then replace an exactly-zero soft limit by 300 ms. -/
def go_times (team : Team) (options : List GoOption) : Nat × Nat :=
  let acc := options.foldl (go_step team) (0, 0)
  if acc.1 = 0 then (300, acc.2) else acc

/-- Per-option soft-limit contribution (statement helper for claim C8,
mirroring what the fold in `go_times` adds for each option). -/
def soft_contrib (team : Team) : GoOption → Nat
  | GoOption.wtime t => if team = Team.white then t / 40 else 0
  | GoOption.btime t => if team = Team.black then t / 40 else 0
  | GoOption.winc i => if team = Team.white then i / 4 else 0
  | GoOption.binc i => i / 4
  | GoOption.movetime t => t / 2
  | GoOption.other => 0

/-- Per-option hard-limit contribution (statement helper for claim C8). -/
def hard_contrib (team : Team) : GoOption → Nat
  | GoOption.wtime t => if team = Team.white then t / 9 else 0
  | GoOption.btime t => if team = Team.black then t / 9 else 0
  | GoOption.movetime t => t
  | _ => 0

/-- A benign concrete board-library instance on the unit board: no moves,
every position legal, every game drawn, constant evaluation zero.  Used
to instantiate hypotheses of the claim theorems at concrete inputs. -/
def trivialRules : Rules Unit where
  list_actions _ := []
  is_legal _ := true
  play _ _ := ()
  play_null _ := ()
  game_state _ _ := GameState.draw
  hash _ := 5
  history_stack _ := []
  moving_team _ := Team.white
  piece_at _ _ := none
  opp_team_at _ _ := false
  team_bb _ := 0
  pieces_bb _ _ := 0
  eval _ _ _ := 0
  clock _ := 0

/-- A freshly initialised `SearchInfo` (all tables zero, empty stacks). -/
def infoT : SearchInfo where
  root_depth := 1
  best_move := none
  history _ _ _ := 0
  capture_history _ _ _ := 0
  conthist _ _ _ _ _ _ := 0
  killers _ _ := none
  pv_table := List.replicate 100 []
  plies _ := { eval := 0 }
  quiet_lmr _ _ := 0
  noisy_lmr _ _ := 0
  hashes := []
  mobility _ := none
  tt _ := none
  tt_size := 1000000
  nodes := 0
  score := 0
  abort := false
  time_to_abort := 1000000000
  clockIdx := 0

/-- Concrete board for the C1 counterexample: white queen on d1, kings on
e1 and e8 (material 950, PeSTO phase 4). -/
def b1 : EvalBoard where
  pieces := fun i => if i = 4 then [3] else if i = 5 then [4, 60] else []
  white := [3, 4]
  black := [60]
  moving_team := Team.white

/-- Concrete board for the C5 counterexample: bare kings on e1 and e8. -/
def b5 : EvalBoard where
  pieces := fun i => if i = 5 then [4, 60] else []
  white := [4]
  black := [60]
  moving_team := Team.white

/-- Concrete mobility samples for the C5 counterexample: 5 white moves
recorded at ply 0, 3 black moves at ply 1. -/
def mob5 : Nat → Option (Nat × Team) :=
  fun p => if p = 0 then some (5, Team.white) else if p = 1 then some (3, Team.black) else none

/-- Board-library instance for the C3 counterexample: hash 42, static
evaluation 200. -/
def R3 : Rules Unit :=
  { trivialRules with hash := fun _ => 42, eval := fun _ _ _ => 200 }

/-- Search state for the C3 counterexample: hash 42 is already on the
repetition stack. -/
def info3 : SearchInfo := { infoT with hashes := [42] }

/-- Board-library instance for the C4 counterexample (the quiet move is not
a capture and there is no TT move). -/
def R4 : Rules Unit := trivialRules

/-- Search state for the C4 counterexample: butterfly history constantly 7,
continuation history constantly 10. -/
def info4 : SearchInfo :=
  { infoT with history := fun _ _ _ => 7, conthist := fun _ _ _ _ _ _ => 10 }

/-- The quiet move of the C4 counterexample. -/
def act4 : Action := { «from» := 8, «to» := 16, piece := 1, info := 0 }

/-- The previous move of the C4 counterexample. -/
def prev4 : Action := { «from» := 10, «to» := 20, piece := 2, info := 0 }

/-- Board-library instance for the C6 counterexample: the root position is
already decided (no legal moves, `game_state` reports a win). -/
def R6 : Rules Unit :=
  { trivialRules with game_state := fun _ _ => GameState.win Team.white }

/-- The single pseudo-legal move of the C9 counterexample scenario. -/
def a9 : Action := { «from» := 0, «to» := 1, piece := 1, info := 0 }

/-- Board-library instance for the C9 counterexample: one legal quiet move,
game ongoing, and a wall clock that crosses the deadline (100) between
the first reading (50) and every later one (200). -/
def R9 : Rules Unit :=
  { trivialRules with
    list_actions := fun _ => [a9],
    game_state := fun _ _ => GameState.ongoing,
    hash := fun _ => 7,
    clock := fun i => if i = 0 then 50 else 200 }

/-- Search state for the C9 counterexample: root depth 5, abort deadline
at clock 100. -/
def info9 : SearchInfo := { infoT with root_depth := 5, time_to_abort := 100 }

/-- All `SearchInfo` fields except `nodes` and `mobility` agree between
`i` and `i2` (the frame of `quiescence`, claim C10). -/
def preserves_outside_qs (i i2 : SearchInfo) : Prop :=
  i2.root_depth = i.root_depth ∧ i2.best_move = i.best_move ∧ i2.history = i.history ∧
  i2.capture_history = i.capture_history ∧ i2.conthist = i.conthist ∧ i2.killers = i.killers ∧
  i2.pv_table = i.pv_table ∧ i2.plies = i.plies ∧ i2.quiet_lmr = i.quiet_lmr ∧
  i2.noisy_lmr = i.noisy_lmr ∧ i2.hashes = i.hashes ∧ i2.tt = i.tt ∧ i2.tt_size = i.tt_size ∧
  i2.score = i.score ∧ i2.abort = i.abort ∧ i2.time_to_abort = i.time_to_abort ∧
  i2.clockIdx = i.clockIdx

/-- The static-evaluation oracle never leaves `[MIN, MAX]` (true of the
chess evaluation, whose material, PSQT and mobility terms are a few
thousand centipawns). -/
def EvalOk {B : Type} (R : Rules B) : Prop :=
  ∀ b m p, MIN ≤ R.eval b m p ∧ R.eval b m p ≤ MAX

/-- Every transposition-table entry's score lies in `[MIN, MAX]` (holds for
a fresh `SearchInfo`, whose table is empty). -/
def TtInv (i : SearchInfo) : Prop :=
  ∀ n e, i.tt n = some e → MIN ≤ e.score ∧ e.score ≤ MAX

/-- One engine step, viewed by claim C9: if the abort flag is clear
afterwards, it was clear before and the repetition stack is unchanged. -/
def abort_hash_step (i j : SearchInfo) : Prop :=
  j.abort = false → i.abort = false ∧ j.hashes = i.hashes

/-- One engine step, viewed by claim C7 from a frame strictly below the
root: the recorded root depth and the stored root best move are untouched. -/
def c7_inner_step (i j : SearchInfo) : Prop :=
  j.root_depth = i.root_depth ∧ j.best_move = i.best_move

/-- What one completed `search` frame at depth `d` guarantees for claim C7:
the root depth is preserved; a frame below the root never touches the
stored best move; a frame that exits with the abort flag set returned 0
and left the stored best move alone; and the stored best move is either
untouched or holds an actual move (never overwritten with `none`). -/
def c7_frame (d : Int) (i : SearchInfo) (r : Int) (j : SearchInfo) : Prop :=
  j.root_depth = i.root_depth ∧
  (d < i.root_depth → j.best_move = i.best_move) ∧
  (j.abort = true → r = 0 ∧ j.best_move = i.best_move) ∧
  (j.best_move = i.best_move ∨ j.best_move.isSome = true)

/-- Core arithmetic of the gravity update: from a cell value in
`[-300, 300]` and a clamped bonus in `[-300, 300]`, the update
`v + (c - (v * |c|) tdiv 300)` stays in `[-300, 300]`. -/
theorem gravity_core (v c : Int) (hv1 : -300 ≤ v) (hv2 : v ≤ 300)
    (hc1 : -300 ≤ c) (hc2 : c ≤ 300) :
    -300 ≤ v + (c - rdiv (v * |c|) 300) ∧ v + (c - rdiv (v * |c|) 300) ≤ 300 := by
  unfold rdiv
  have hm1 : 0 ≤ |c| := abs_nonneg c
  have hm2 : |c| ≤ 300 := abs_le.mpr ⟨hc1, hc2⟩
  set m := |c| with hm
  have habs : m = c ∨ m = -c := abs_choice c
  rcases le_or_lt 0 v with hv | hv
  · have hx : (0 : Int) ≤ v * m := mul_nonneg hv hm1
    have ht : Int.tdiv (v * m) 300 = (v * m) / 300 := Int.tdiv_eq_ediv hx (by norm_num)
    have hdm := Int.ediv_add_emod (v * m) 300
    have hr1 : 0 ≤ (v * m) % 300 := Int.emod_nonneg _ (by norm_num)
    have hr2 : (v * m) % 300 < 300 := Int.emod_lt_of_pos _ (by norm_num)
    have hvm : v * m ≤ 300 * v := by nlinarith
    have hkey : 300 * v + 300 * c - v * m ≤ 90000 := by
      rcases habs with h | h
      · nlinarith [mul_nonneg (by omega : (0 : Int) ≤ 300 - v) (by omega : (0 : Int) ≤ 300 - c)]
      · nlinarith [mul_nonneg hv (by omega : (0 : Int) ≤ -c)]
    exact ⟨by rw [ht]; omega, by rw [ht]; omega⟩
  · have hx : (0 : Int) ≤ (-v) * m := mul_nonneg (by omega) hm1
    have ht0 : Int.tdiv (v * m) 300 = -Int.tdiv ((-v) * m) 300 := by
      rw [neg_mul, Int.neg_tdiv, neg_neg]
    have ht : Int.tdiv ((-v) * m) 300 = ((-v) * m) / 300 := Int.tdiv_eq_ediv hx (by norm_num)
    have hdm := Int.ediv_add_emod ((-v) * m) 300
    have hr1 : 0 ≤ ((-v) * m) % 300 := Int.emod_nonneg _ (by norm_num)
    have hr2 : ((-v) * m) % 300 < 300 := Int.emod_lt_of_pos _ (by norm_num)
    have hvm : (-v) * m ≤ 300 * (-v) := by nlinarith
    have hkey : 300 * (-v) + 300 * (-c) - (-v) * m ≤ 90000 := by
      rcases habs with h | h
      · nlinarith [mul_nonneg (by omega : (0 : Int) ≤ -v) (by omega : (0 : Int) ≤ c)]
      · nlinarith [mul_nonneg (by omega : (0 : Int) ≤ 300 + v) (by omega : (0 : Int) ≤ 300 + c)]
    exact ⟨by rw [ht0, ht]; omega, by rw [ht0, ht]; omega⟩

/-- The clamped bonus lies between the clamp bounds. -/
theorem rclamp_mem (x lo hi : Int) (h : lo ≤ hi) : lo ≤ rclamp x lo hi ∧ rclamp x lo hi ≤ hi :=
  ⟨le_max_left lo _, max_le h (min_le_right x hi)⟩

/-- Claim C2: every butterfly/capture-history cell and every
continuation-history cell stays within `[-MAX_HISTORY, MAX_HISTORY]`
(= `[-300, 300]`) across a gravity update with an arbitrary bonus:
if all cells of the table are in bounds before `update_history`
(respectively `update_conthist`), all cells are in bounds after. -/
theorem C2_history_bounded (h : History) (ch : ContinuationHistory)
    (team prio : Team) (act prev : Action) (bonus : Int)
    (hh : ∀ t f s, MIN_HISTORY ≤ h t f s ∧ h t f s ≤ MAX_HISTORY)
    (hch : ∀ pt pp ps t p s, MIN_HISTORY ≤ ch pt pp ps t p s ∧ ch pt pp ps t p s ≤ MAX_HISTORY) :
    (∀ t f s, MIN_HISTORY ≤ update_history h team act bonus t f s ∧
      update_history h team act bonus t f s ≤ MAX_HISTORY) ∧
    (∀ pt pp ps t p s, MIN_HISTORY ≤ update_conthist ch prio prev team act bonus pt pp ps t p s ∧
      update_conthist ch prio prev team act bonus pt pp ps t p s ≤ MAX_HISTORY) := by
  have hcb := rclamp_mem bonus MIN_HISTORY MAX_HISTORY (by norm_num [MIN_HISTORY, MAX_HISTORY])
  set c := rclamp bonus MIN_HISTORY MAX_HISTORY with hc
  have hcb1 : -300 ≤ c := by simpa [MIN_HISTORY, MAX_HISTORY] using hcb.1
  have hcb2 : c ≤ 300 := by simpa [MAX_HISTORY] using hcb.2
  constructor
  · intro t f s
    have hv := hh t f s
    simp only [MIN_HISTORY, MAX_HISTORY] at hv ⊢
    unfold update_history
    simp only [← hc, MIN_HISTORY, MAX_HISTORY]
    split
    · exact gravity_core (h t f s) c hv.1 hv.2 hcb1 hcb2
    · exact hv
  · intro pt pp ps t p s
    have hv := hch pt pp ps t p s
    simp only [MIN_HISTORY, MAX_HISTORY] at hv ⊢
    unfold update_conthist
    simp only [← hc, MIN_HISTORY, MAX_HISTORY]
    split
    · exact gravity_core (ch pt pp ps t p s) c hv.1 hv.2 hcb1 hcb2
    · exact hv

/-- Witness for C2: the in-bounds tables constantly 150 and -200 stay in
bounds at the updated cells after a bonus-250 gravity update. -/
theorem C2_history_bounded_witness :
    MIN_HISTORY ≤ update_history (fun _ _ _ => 150) Team.white act4 250 Team.white 8 16 ∧
    update_history (fun _ _ _ => 150) Team.white act4 250 Team.white 8 16 ≤ MAX_HISTORY ∧
    MIN_HISTORY ≤
      update_conthist (fun _ _ _ _ _ _ => -200) Team.black prev4 Team.white act4 250
        Team.black 2 20 Team.white 1 16 ∧
    update_conthist (fun _ _ _ _ _ _ => -200) Team.black prev4 Team.white act4 250
      Team.black 2 20 Team.white 1 16 ≤ MAX_HISTORY := by
  have := C2_history_bounded (fun _ _ _ => 150) (fun _ _ _ _ _ _ => -200)
    Team.white Team.black act4 prev4 250
    (fun _ _ _ => by norm_num [MIN_HISTORY, MAX_HISTORY])
    (fun _ _ _ _ _ _ => by norm_num [MIN_HISTORY, MAX_HISTORY])
  exact ⟨(this.1 _ _ _).1, (this.1 _ _ _).2, (this.2 _ _ _ _ _ _).1, (this.2 _ _ _ _ _ _).2⟩

/-- Claim C4 (amended): a quiet move that is not the TT move is ordered by
its butterfly history plus the full (not halved) 1-ply-back and 2-ply-back
continuation-history values, plus a killer bonus of `100 / (slot + 1)` for
each matching killer slot. -/
theorem C4_quiet_score {B : Type} (R : Rules B) (board : B) (info : SearchInfo) (ply : Nat)
    (act : Action) (previous two_ply fbm : Option Action)
    (hfb : fbm ≠ some act) (hn : is_noisy R board act = false) :
    score R board info ply act previous two_ply fbm =
      info.history (R.moving_team board) act.«from» act.«to»
      + (match previous with
         | some p => info.conthist (R.moving_team board).next p.piece p.«to»
             (R.moving_team board) act.piece act.«to»
         | none => 0)
      + (match two_ply with
         | some p => info.conthist (R.moving_team board) p.piece p.«to»
             (R.moving_team board) act.piece act.«to»
         | none => 0)
      + ((if info.killers 0 ply = some act then 100 else 0)
         + (if info.killers 1 ply = some act then 50 else 0)) := by
  have h100 : rdiv 100 1 = 100 := by decide
  have h50 : rdiv 100 2 = 50 := by decide
  unfold score
  rw [if_neg hfb, if_neg (by simp [hn])]
  have hrange : List.range MAX_KILLERS = [0, 1] := by decide
  rw [hrange]
  simp only [List.foldl]
  unfold get_quiet_history
  by_cases k0 : info.killers 0 ply = some act <;>
    by_cases k1 : info.killers 1 ply = some act <;>
      simp only [k0, k1, if_pos, if_neg, if_true, if_false] <;>
        cases previous <;> cases two_ply <;>
          simp [k0, k1, h100, h50] <;> ring

/-- Counterexample for C4: with butterfly history constantly 7 and
continuation history constantly 10, the source scores the quiet move at
`7 + 10 + 10 = 27`, while the claimed halved formula gives
`7 + 10/2 + 10/2 = 17`. -/
theorem C4_counterexample :
    score R4 () info4 0 act4 (some prev4) (some prev4) none = 27 ∧
    info4.history Team.white act4.«from» act4.«to»
      + rdiv (info4.conthist Team.white.next prev4.piece prev4.«to» Team.white act4.piece act4.«to») 2
      + rdiv (info4.conthist Team.white prev4.piece prev4.«to» Team.white act4.piece act4.«to») 2
      + 0 = 17 ∧
    (27 : Int) ≠ 17 := by
  refine ⟨by decide, by decide, by decide⟩

/-- Witness for C4: the amended formula evaluated at the counterexample's
concrete input indeed yields the source's score 27. -/
theorem C4_quiet_score_witness :
    score R4 () info4 0 act4 (some prev4) (some prev4) none =
      info4.history (R4.moving_team ()) act4.«from» act4.«to»
      + info4.conthist (R4.moving_team ()).next prev4.piece prev4.«to»
          (R4.moving_team ()) act4.piece act4.«to»
      + info4.conthist (R4.moving_team ()) prev4.piece prev4.«to»
          (R4.moving_team ()) act4.piece act4.«to»
      + ((if info4.killers 0 0 = some act4 then 100 else 0)
         + (if info4.killers 1 0 = some act4 then 50 else 0)) := by
  exact C4_quiet_score R4 () info4 0 act4 (some prev4) (some prev4) none
    (by decide) (by decide)

/-- The mobility walk of `eval` computes, for each side, the most recent
nonzero recorded count (unless the accumulator was already nonzero). -/
theorem mobility_walk_eq (mob : Nat → Option (Nat × Team)) :
    ∀ (p : Nat) (w b : Nat),
      mobility_walk mob p w b =
        ((if w = 0 then most_recent_count mob Team.white p else w),
         (if b = 0 then most_recent_count mob Team.black p else b)) := by
  intro p
  induction p with
  | zero =>
    intro w b
    simp only [mobility_walk, most_recent_count]
    by_cases hw : w = 0 <;> by_cases hb : b = 0 <;> simp [hw, hb]
  | succ p ih =>
    intro w b
    rw [mobility_walk]
    by_cases hwb : w > 0 ∧ b > 0
    · rw [if_pos hwb]
      have hw : ¬ w = 0 := by omega
      have hb : ¬ b = 0 := by omega
      simp [hw, hb]
    · rw [if_neg hwb]
      cases hm : mob p with
      | none =>
        simp only [ih, most_recent_count, hm]
      | some pair =>
        obtain ⟨m, t⟩ := pair
        cases t with
        | white =>
          simp only [ih, most_recent_count, hm]
          by_cases hw : w = 0 <;> by_cases hm0 : m = 0 <;>
            simp_all
        | black =>
          simp only [ih, most_recent_count, hm]
          by_cases hb : b = 0 <;> by_cases hm0 : m = 0 <;>
            simp_all

/-- The static evaluation written as a closed formula: side-relative sign
times (material balance, plus the material-threshold taper of the two PSQT
balances, plus `MOBILITY` times the difference of the most recent nonzero
mobility counts). -/
theorem eval_eq (board : EvalBoard) (mob : Nat → Option (Nat × Team)) (ply : Nat) :
    eval board mob ply =
      team_to_move board *
        (white_material board - black_material board +
          material_taper (psqt_mg board) (psqt_eg board) (total_material board) +
          MOBILITY * ((most_recent_count mob Team.white ply : Int) -
            (most_recent_count mob Team.black ply : Int))) := by
  have hw : ((bcount (band (board.pieces 0) board.white) : Int) * PAWN
      + (bcount (band (board.pieces 1) board.white) : Int) * KNIGHT
      + (bcount (band (board.pieces 2) board.white) : Int) * BISHOP
      + (bcount (band (board.pieces 3) board.white) : Int) * ROOK
      + (bcount (band (board.pieces 4) board.white) : Int) * QUEEN) = white_material board := rfl
  have hb : ((bcount (band (board.pieces 0) board.black) : Int) * PAWN
      + (bcount (band (board.pieces 1) board.black) : Int) * KNIGHT
      + (bcount (band (board.pieces 2) board.black) : Int) * BISHOP
      + (bcount (band (board.pieces 3) board.black) : Int) * ROOK
      + (bcount (band (board.pieces 4) board.black) : Int) * QUEEN) = black_material board := rfl
  have hmg : compute_mg (band (board.pieces 0) board.white) (band (board.pieces 0) board.black)
      (band (board.pieces 1) board.white) (band (board.pieces 1) board.black)
      (band (board.pieces 2) board.white) (band (board.pieces 2) board.black)
      (band (board.pieces 3) board.white) (band (board.pieces 3) board.black)
      (band (board.pieces 4) board.white) (band (board.pieces 4) board.black)
      (band (board.pieces 5) board.white) (band (board.pieces 5) board.black) =
      psqt_mg board := rfl
  have heg : compute_eg (band (board.pieces 0) board.white) (band (board.pieces 0) board.black)
      (band (board.pieces 1) board.white) (band (board.pieces 1) board.black)
      (band (board.pieces 2) board.white) (band (board.pieces 2) board.black)
      (band (board.pieces 3) board.white) (band (board.pieces 3) board.black)
      (band (board.pieces 4) board.white) (band (board.pieces 4) board.black)
      (band (board.pieces 5) board.white) (band (board.pieces 5) board.black) =
      psqt_eg board := rfl
  simp only [eval]
  rw [mobility_walk_eq]
  simp only [eq_self_iff_true, if_true]
  rw [hw, hb, hmg, heg]
  unfold material_taper total_material
  ring

/-- Claim C1 (amended): the PSQT contribution of the evaluation is tapered
by total material, not by a PeSTO piece phase: pure middlegame above 5000
points of combined material, pure endgame below 2500, and the linear blend
`(mg·(tm−2500) + eg·(5000−tm)) / 2500` in between. -/
theorem C1_psqt_taper (board : EvalBoard) (mob : Nat → Option (Nat × Team)) (ply : Nat) :
    eval board mob ply =
      team_to_move board *
        (white_material board - black_material board +
          (if total_material board > 5000 then psqt_mg board
           else if total_material board < 2500 then psqt_eg board
           else rdiv (psqt_mg board * (total_material board - 2500) +
                  psqt_eg board * (2500 - (total_material board - 2500))) 2500) +
          MOBILITY * ((most_recent_count mob Team.white ply : Int) -
            (most_recent_count mob Team.black ply : Int))) := by
  rw [eval_eq]
  unfold material_taper
  ring

/-- Counterexample for C1: on the board with a white queen on d1 and kings
on e1/e8 (material 950, PeSTO phase 4) the evaluation is 907 — its PSQT
term is the pure endgame value −43 — while the claimed phase formula
`(mg·mg_phase + eg·eg_phase)/24` would give −34 and hence a total of 916. -/
theorem C1_counterexample :
    eval b1 (fun _ => none) 0 = 907 ∧
    team_to_move b1 * (white_material b1 - black_material b1 + pesto_psqt b1
      + MOBILITY * ((most_recent_count (fun _ => none) Team.white 0 : Int)
          - (most_recent_count (fun _ => none) Team.black 0 : Int))) = 916 ∧
    (907 : Int) ≠ 916 := by
  refine ⟨by decide, by decide, by decide⟩

/-- Claim C5 (amended): the mobility bonus the evaluation adds is
`3 · (white_count − black_count)` — the source's `MOBILITY` is 3, not 2 —
where each side's count is the most recent nonzero recorded count walking
back from the current ply. -/
theorem C5_mobility_bonus (board : EvalBoard) (mob : Nat → Option (Nat × Team)) (ply : Nat) :
    eval board mob ply =
      team_to_move board *
        (white_material board - black_material board +
          material_taper (psqt_mg board) (psqt_eg board) (total_material board) +
          3 * ((most_recent_count mob Team.white ply : Int) -
            (most_recent_count mob Team.black ply : Int))) := by
  rw [eval_eq]
  norm_num [MOBILITY]

/-- Counterexample for C5: with bare kings, 5 white moves recorded at ply 0
and 3 black moves at ply 1, the evaluation at ply 2 is `3·(5−3) = 6`,
while the claimed weight 2 would give 4. -/
theorem C5_counterexample :
    eval b5 mob5 2 = 6 ∧
    team_to_move b5 * (white_material b5 - black_material b5 +
      material_taper (psqt_mg b5) (psqt_eg b5) (total_material b5) +
      2 * ((most_recent_count mob5 Team.white 2 : Int) -
        (most_recent_count mob5 Team.black 2 : Int))) = 4 ∧
    (6 : Int) ≠ 4 := by
  refine ⟨by decide, by decide, by decide⟩

/-- One `go_step` adds exactly the per-option soft and hard contribution. -/
theorem go_step_eq (team : Team) (s h : Nat) (opt : GoOption) :
    go_step team (s, h) opt = (s + soft_contrib team opt, h + hard_contrib team opt) := by
  cases opt <;> cases team <;> simp [go_step, soft_contrib, hard_contrib]

/-- The option fold of `go_times` adds, per option, exactly the soft and
hard contributions, starting from any accumulator. -/
theorem go_times_fold (team : Team) (opts : List GoOption) :
    ∀ s h : Nat,
      opts.foldl (go_step team) (s, h) =
        (s + (opts.map (soft_contrib team)).sum, h + (opts.map (hard_contrib team)).sum) := by
  induction opts with
  | nil => intro s h; simp
  | cons opt rest ih =>
    intro s h
    rw [List.foldl_cons, go_step_eq, ih]
    simp only [List.map_cons, List.sum_cons]
    refine Prod.ext ?_ ?_ <;> simp <;> omega

/-- Claim C8 (amended): for a `go` command the driver's soft limit is the
sum of `time/40` for the side to move's clock, `winc/4` only when White is
to move but `binc/4` regardless of the side to move, and `movetime/2`; the
hard limit is the side to move's `time/9` plus `movetime`.  A soft limit
that comes out exactly 0 is replaced by 300 ms (there is no general
flooring at 300). -/
theorem C8_time_budget (team : Team) (opts : List GoOption) :
    go_times team opts =
      (if (opts.map (soft_contrib team)).sum = 0 then 300
       else (opts.map (soft_contrib team)).sum,
       (opts.map (hard_contrib team)).sum) := by
  unfold go_times
  rw [go_times_fold]
  simp only [Nat.zero_add]
  split <;> simp

/-- Counterexample for C8: with 4000 ms on White's clock the source computes
soft limit 100 ms — not floored to 300 — and a black increment of 400 ms
leaks into White's soft limit (200 ms instead of the claimed 100). -/
theorem C8_counterexample :
    go_times Team.white [GoOption.wtime 4000] = (100, 444) ∧ (100 : Nat) < 300 ∧
    go_times Team.white [GoOption.wtime 4000, GoOption.binc 400] = (200, 444) := by
  refine ⟨by decide, by decide, by decide⟩

/-- Claim C3 (amended): when `search` actually reaches the repetition check
— not aborted, `depth ≥ 1`, and the reverse-futility exit does not fire —
a position whose hash is on the repetition stack returns 0 at any
`ply > 0`, for any window and any transposition-table contents. -/
theorem C3_repetition {B : Type} (R : Rules B) (fuel : Nat) (board : B) (info : SearchInfo)
    (depth : Int) (ply : Nat) (alpha beta : Int) (is_pv : Bool)
    (habort : info.abort = false)
    (hclock : depth ≥ 4 → R.clock info.clockIdx < info.time_to_abort)
    (hdepth : 1 ≤ depth)
    (hrep : R.hash board ∈ info.hashes) (hply : 0 < ply)
    (hrfp : is_pv = true ∨ 3 < depth ∨ R.eval board info.mobility ply - 100 * depth < beta) :
    ∃ info1, search R (fuel + 1) board info depth ply alpha beta is_pv = some (0, info1) := by
  rw [search]
  have hrfp' : ∀ i2 : SearchInfo, i2.mobility = info.mobility →
      ¬ (is_pv = false ∧ depth ≤ 3 ∧ R.eval board i2.mobility ply - 100 * depth ≥ beta) := by
    rintro i2 hm ⟨h1, h2, h3⟩
    rw [hm] at h3
    rcases hrfp with h | h | h
    · rw [h] at h1; cases h1
    · omega
    · omega
  by_cases hd4 : depth ≥ 4
  · have hc : decide (R.clock info.clockIdx ≥ info.time_to_abort) = false :=
      decide_eq_false (by have := hclock hd4; omega)
    rw [if_pos (show depth ≥ 4 ∧ info.abort = false from ⟨hd4, habort⟩), hc]
    rw [if_neg (by simp : ¬ ({ info with abort := false, clockIdx := info.clockIdx + 1 }
        : SearchInfo).abort = true)]
    rw [if_neg (by omega : ¬ depth ≤ 0)]
    rw [if_neg (hrfp' _ rfl)]
    rw [if_pos ⟨hrep, hply⟩]
    exact ⟨_, rfl⟩
  · rw [if_neg (show ¬ (depth ≥ 4 ∧ info.abort = false) from fun h => hd4 h.1)]
    rw [if_neg (show ¬ (info.abort = true) from by rw [habort]; exact Bool.false_ne_true)]
    rw [if_neg (by omega : ¬ depth ≤ 0)]
    rw [if_neg (hrfp' _ rfl)]
    rw [if_pos ⟨hrep, hply⟩]
    exact ⟨_, rfl⟩

/-- Counterexample for C3: hash 42 is on the repetition stack and `ply = 1`,
but at depth 1 in a non-PV node with static evaluation 200 and window top
100, reverse futility pruning fires first and `search` returns 200, not 0. -/
theorem C3_counterexample :
    (42 ∈ info3.hashes) ∧
    (search R3 1 () info3 1 1 (-1000000) 100 false).map Prod.fst = some 200 ∧
    (200 : Int) ≠ 0 := by
  refine ⟨by decide, by decide, by decide⟩

/-- Witness for C3: at a concrete repeated-hash position where the earlier
exits do not fire (PV node, depth 1), the search returns 0. -/
theorem C3_repetition_witness :
    ∃ info1, search R3 1 () info3 1 1 (-1000000) 1000000 true = some (0, info1) := by
  exact C3_repetition R3 0 () info3 1 1 (-1000000) 1000000 true rfl
    (fun h => absurd h (by decide)) (by decide) (by decide) (by decide) (Or.inl rfl)

/-- Reflexivity of the quiescence frame relation. -/
theorem po_refl (i : SearchInfo) : preserves_outside_qs i i :=
  ⟨rfl, rfl, rfl, rfl, rfl, rfl, rfl, rfl, rfl, rfl, rfl, rfl, rfl, rfl, rfl, rfl, rfl⟩

/-- Transitivity of the quiescence frame relation. -/
theorem po_trans {i j k : SearchInfo}
    (hij : preserves_outside_qs i j) (hjk : preserves_outside_qs j k) :
    preserves_outside_qs i k := by
  obtain ⟨a1, a2, a3, a4, a5, a6, a7, a8, a9', a10, a11, a12, a13, a14, a15, a16, a17⟩ := hij
  obtain ⟨b1, b2, b3, b4, b5, b6, b7, b8, b9, b10, b11, b12, b13, b14, b15, b16, b17⟩ := hjk
  exact ⟨b1.trans a1, b2.trans a2, b3.trans a3, b4.trans a4, b5.trans a5, b6.trans a6,
    b7.trans a7, b8.trans a8, b9.trans a9', b10.trans a10, b11.trans a11, b12.trans a12,
    b13.trans a13, b14.trans a14, b15.trans a15, b16.trans a16, b17.trans a17⟩

/-- Bumping the node counter is inside the quiescence frame. -/
theorem po_nodes (i : SearchInfo) (n : Nat) :
    preserves_outside_qs i { i with nodes := n } :=
  ⟨rfl, rfl, rfl, rfl, rfl, rfl, rfl, rfl, rfl, rfl, rfl, rfl, rfl, rfl, rfl, rfl, rfl⟩

/-- Writing the mobility sample is inside the quiescence frame. -/
theorem po_mobility (i : SearchInfo) (m : Nat → Option (Nat × Team)) :
    preserves_outside_qs i { i with mobility := m } :=
  ⟨rfl, rfl, rfl, rfl, rfl, rfl, rfl, rfl, rfl, rfl, rfl, rfl, rfl, rfl, rfl, rfl, rfl⟩

/-- The quiescence move loop only touches `nodes` and `mobility`, provided
its recursive calls do. -/
theorem qs_loop_frame {B : Type} (R : Rules B) (board : B) (ply : Nat) (beta : Int)
    (child : B → SearchInfo → Nat → Int → Int → Option (Int × SearchInfo))
    (hchild : ∀ b i p a bb r i2, child b i p a bb = some (r, i2) → preserves_outside_qs i i2) :
    ∀ (acts : List ScoredAction) (info : SearchInfo) (best alpha r : Int) (i2 : SearchInfo),
      qs_loop child R board ply beta acts info best alpha = some (r, i2) →
      preserves_outside_qs info i2 := by
  intro acts
  induction acts with
  | nil =>
    intro info best alpha r i2 h
    simp only [qs_loop, Option.some.injEq, Prod.mk.injEq] at h
    obtain ⟨-, h2⟩ := h
    exact h2 ▸ po_refl info
  | cons sa rest ih =>
    intro info best alpha r i2 h
    simp only [qs_loop] at h
    split at h
    · exact ih _ _ _ _ _ h
    · split at h
      · exact absurd h (by simp)
      · rename_i r1 i1 heq
        have hstep : preserves_outside_qs info i1 :=
          po_trans (po_nodes info (info.nodes + 1)) (hchild _ _ _ _ _ _ _ heq)
        split at h
        · simp only [Option.some.injEq, Prod.mk.injEq] at h
          obtain ⟨-, h2⟩ := h
          exact h2 ▸ hstep
        · exact po_trans hstep (ih _ _ _ _ _ h)

/-- Quiescence only touches `nodes` and `mobility` (general lemma). -/
theorem quiescence_frame {B : Type} (R : Rules B) :
    ∀ (fuel : Nat) (board : B) (info : SearchInfo) (ply : Nat) (alpha beta r : Int)
      (i2 : SearchInfo),
      quiescence R fuel board info ply alpha beta = some (r, i2) →
      preserves_outside_qs info i2 := by
  intro fuel
  induction fuel with
  | zero =>
    intro board info ply alpha beta r i2 h
    exact absurd h (by simp [quiescence])
  | succ fuel ih =>
    intro board info ply alpha beta r i2 h
    simp only [quiescence] at h
    split at h
    · simp only [Option.some.injEq, Prod.mk.injEq] at h
      obtain ⟨-, h2⟩ := h
      exact h2 ▸ po_refl info
    · have hchild : ∀ b i p a bb r' i', quiescence R fuel b i p a bb = some (r', i') →
          preserves_outside_qs i i' := fun b i p a bb r' i' hh => ih b i p a bb r' i' hh
      have hloop := qs_loop_frame R board ply beta _ hchild _ _ _ _ _ _ h
      exact po_trans (po_mobility info _) hloop

/-- Claim C10: quiescence mutates only `nodes` and `mobility` among the
`SearchInfo` fields — the transposition table, all history tables, the
killers, the PV table, the repetition stack, `score` and `best_move` (and
everything else) are returned exactly as they came in. -/
theorem C10_quiescence_frame {B : Type} (R : Rules B) (fuel : Nat) (board : B)
    (info : SearchInfo) (ply : Nat) (alpha beta r : Int) (i2 : SearchInfo)
    (h : quiescence R fuel board info ply alpha beta = some (r, i2)) :
    preserves_outside_qs info i2 :=
  quiescence_frame R fuel board info ply alpha beta r i2 h

/-- Witness for C10: a concrete quiescence call returns with every frame
field unchanged. -/
theorem C10_quiescence_frame_witness :
    ∃ p : Int × SearchInfo, quiescence trivialRules 1 () infoT 0 0 10 = some p ∧
      preserves_outside_qs infoT p.2 := by
  have hs : (quiescence trivialRules 1 () infoT 0 0 10).isSome = true := by decide
  obtain ⟨p, hp⟩ := Option.isSome_iff_exists.mp hs
  exact ⟨p, hp, C10_quiescence_frame trivialRules 1 () infoT 0 0 10 p.1 p.2 (by
    rw [hp])⟩

/-- Every `SearchInfo` projection other than `pv_table` is unchanged by the
PV splice. -/
theorem pv_update_proj (i : SearchInfo) (ply : Nat) (act : Action) :
    (pv_update i ply act).root_depth = i.root_depth ∧
    (pv_update i ply act).best_move = i.best_move ∧
    (pv_update i ply act).hashes = i.hashes ∧
    (pv_update i ply act).abort = i.abort ∧
    (pv_update i ply act).tt = i.tt ∧
    (pv_update i ply act).tt_size = i.tt_size ∧
    (pv_update i ply act).history = i.history ∧
    (pv_update i ply act).capture_history = i.capture_history ∧
    (pv_update i ply act).conthist = i.conthist ∧
    (pv_update i ply act).killers = i.killers :=
  ⟨rfl, rfl, rfl, rfl, rfl, rfl, rfl, rfl, rfl, rfl⟩

/-- Every `SearchInfo` projection other than the four history-family tables
is unchanged by the cutoff bookkeeping. -/
theorem cutoff_updates_proj (i : SearchInfo) (team : Team) (act : Action) (depth : Int)
    (ply : Nat) (previous two_ply : Option Action) (quiets noisies : List Action)
    (noisy : Bool) :
    (cutoff_updates i team act depth ply previous two_ply quiets noisies noisy).root_depth
        = i.root_depth ∧
    (cutoff_updates i team act depth ply previous two_ply quiets noisies noisy).best_move
        = i.best_move ∧
    (cutoff_updates i team act depth ply previous two_ply quiets noisies noisy).hashes
        = i.hashes ∧
    (cutoff_updates i team act depth ply previous two_ply quiets noisies noisy).abort
        = i.abort ∧
    (cutoff_updates i team act depth ply previous two_ply quiets noisies noisy).tt
        = i.tt ∧
    (cutoff_updates i team act depth ply previous two_ply quiets noisies noisy).tt_size
        = i.tt_size ∧
    (cutoff_updates i team act depth ply previous two_ply quiets noisies noisy).pv_table
        = i.pv_table := by
  unfold cutoff_updates
  cases noisy <;> cases previous <;> cases two_ply <;>
    simp only [Bool.false_eq_true, Bool.true_eq_false, if_true, if_false, reduceIte] <;>
    first
      | (split <;> simp)
      | simp

/-- A search frame entered with the abort flag set returns 0 immediately
with the state untouched. -/
theorem search_abort_entry {B : Type} (R : Rules B) (fuel : Nat) (b : B) (info : SearchInfo)
    (d : Int) (p : Nat) (alpha beta : Int) (pv : Bool) (h : info.abort = true) :
    search R (fuel + 1) b info d p alpha beta pv = some (0, info) := by
  rw [search]
  rw [if_neg (show ¬ (d ≥ 4 ∧ info.abort = false) from fun hc => by
    rw [h] at hc; exact absurd hc.2 (by simp))]
  rw [if_pos h]

/-- Reflexivity of the C9 step relation. -/
theorem ah_refl (i : SearchInfo) : abort_hash_step i i := fun h => ⟨h, rfl⟩

/-- Transitivity of the C9 step relation. -/
theorem ah_trans {i j k : SearchInfo}
    (hij : abort_hash_step i j) (hjk : abort_hash_step j k) : abort_hash_step i k := by
  intro hk
  obtain ⟨hj, hh2⟩ := hjk hk
  obtain ⟨hi, hh1⟩ := hij hj
  exact ⟨hi, hh2.trans hh1⟩

/-- Quiescence-frame preservation implies the C9 step relation. -/
theorem ah_of_po {i j : SearchInfo} (h : preserves_outside_qs i j) : abort_hash_step i j := by
  intro hj
  obtain ⟨-, -, -, -, -, -, -, -, -, -, h11, -, -, -, h15, -, -⟩ := h
  exact ⟨by rw [← h15]; exact hj, h11⟩

/-- Bumping `nodes` is a C9 step. -/
theorem ah_nodes (i : SearchInfo) (n : Nat) : abort_hash_step i { i with nodes := n } :=
  fun h => ⟨h, rfl⟩

/-- The PV splice is a C9 step. -/
theorem ah_pv_update (i : SearchInfo) (ply : Nat) (act : Action) :
    abort_hash_step i (pv_update i ply act) := by
  intro h
  obtain ⟨-, -, h3, h4, -⟩ := pv_update_proj i ply act
  exact ⟨by rw [← h4]; exact h, h3⟩

/-- The cutoff bookkeeping is a C9 step. -/
theorem ah_cutoff (i : SearchInfo) (team : Team) (act : Action) (depth : Int) (ply : Nat)
    (previous two_ply : Option Action) (quiets noisies : List Action) (noisy : Bool) :
    abort_hash_step i (cutoff_updates i team act depth ply previous two_ply quiets noisies noisy) := by
  intro h
  obtain ⟨-, -, h3, h4, -⟩ := cutoff_updates_proj i team act depth ply previous two_ply quiets noisies noisy
  exact ⟨by rw [← h4]; exact h, h3⟩

/-- The first PVS stage is a C9 step provided the recursive search is. -/
theorem pvs_first_ah {B : Type}
    (child : B → SearchInfo → Int → Nat → Int → Int → Bool → Option (Int × SearchInfo))
    (hchild : ∀ b i d p a bb pv r i2, child b i d p a bb pv = some (r, i2) →
      abort_hash_step i i2)
    (played : B) (info : SearchInfo) (new_depth r : Int) (ply : Nat) (alpha : Int)
    (lmr : Bool) (is_pv : Bool) (index : Nat) (s : Int) (i2 : SearchInfo)
    (h : pvs_first child played info new_depth r ply alpha lmr is_pv index = some (s, i2)) :
    abort_hash_step info i2 := by
  simp only [pvs_first] at h
  split at h
  · split at h
    · exact absurd h (by simp)
    · rename_i r1 i1 hc1
      have s1 := hchild _ _ _ _ _ _ _ _ _ hc1
      split at h
      · split at h
        · exact absurd h (by simp)
        · rename_i r2 i2' hc2
          simp only [Option.some.injEq, Prod.mk.injEq] at h
          obtain ⟨-, hh⟩ := h
          exact hh ▸ ah_trans s1 (hchild _ _ _ _ _ _ _ _ _ hc2)
      · simp only [Option.some.injEq, Prod.mk.injEq] at h
        obtain ⟨-, hh⟩ := h
        exact hh ▸ s1
  · split at h
    · split at h
      · exact absurd h (by simp)
      · rename_i r1 i1 hc1
        simp only [Option.some.injEq, Prod.mk.injEq] at h
        obtain ⟨-, hh⟩ := h
        exact hh ▸ hchild _ _ _ _ _ _ _ _ _ hc1
    · simp only [Option.some.injEq, Prod.mk.injEq] at h
      obtain ⟨-, hh⟩ := h
      exact hh ▸ ah_refl info

/-- The second PVS stage is a C9 step provided the recursive search is. -/
theorem pvs_second_ah {B : Type}
    (child : B → SearchInfo → Int → Nat → Int → Int → Bool → Option (Int × SearchInfo))
    (hchild : ∀ b i d p a bb pv r i2, child b i d p a bb pv = some (r, i2) →
      abort_hash_step i i2)
    (played : B) (i1 : SearchInfo) (score1 new_depth : Int) (ply : Nat)
    (alpha beta : Int) (is_pv : Bool) (index : Nat) (s : Int) (i2 : SearchInfo)
    (h : pvs_second child played i1 score1 new_depth ply alpha beta is_pv index = some (s, i2)) :
    abort_hash_step i1 i2 := by
  simp only [pvs_second] at h
  split at h
  · split at h
    · exact absurd h (by simp)
    · rename_i r2 i2' hc2
      simp only [Option.some.injEq, Prod.mk.injEq] at h
      obtain ⟨-, hh⟩ := h
      exact hh ▸ hchild _ _ _ _ _ _ _ _ _ hc2
  · simp only [Option.some.injEq, Prod.mk.injEq] at h
    obtain ⟨-, hh⟩ := h
    exact hh ▸ ah_refl i1

/-- The main move loop is a C9 step provided the recursive search is. -/
theorem search_loop_hashes {B : Type} (R : Rules B) (board : B) (depth : Int) (ply : Nat)
    (beta : Int) (is_pv : Bool) (ev : Int) (previous two_ply : Option Action) (root_node : Bool)
    (child : B → SearchInfo → Int → Nat → Int → Int → Bool → Option (Int × SearchInfo))
    (hchild : ∀ b i d p a bb pv r i2, child b i d p a bb pv = some (r, i2) →
      abort_hash_step i i2) :
    ∀ (acts : List ScoredAction) (st st' : LoopSt),
      search_loop child R board depth ply beta is_pv ev previous two_ply root_node acts st =
        some st' →
      abort_hash_step st.info st'.info := by
  intro acts
  induction acts with
  | nil =>
    intro st st' h
    simp only [search_loop, Option.some.injEq] at h
    cases h
    exact ah_refl _
  | cons sa rest ih =>
    intro st st' h
    simp only [search_loop] at h
    split at h
    · exact ih _ _ h
    · split at h
      · have hr := ih _ _ h
        exact hr
      · split at h
        · have hr := ih _ _ h
          exact hr
        · split at h
          · exact absurd h (by simp)
          · rename_i score1 i1 hfirst
            have h1 : abort_hash_step st.info i1 :=
              ah_trans (ah_nodes st.info (st.info.nodes + 1))
                (pvs_first_ah child hchild _ _ _ _ _ _ _ _ _ _ _ hfirst)
            split at h
            · exact absurd h (by simp)
            · rename_i sc i2 hsecond
              have h2 : abort_hash_step i1 i2 :=
                pvs_second_ah child hchild _ _ _ _ _ _ _ _ _ _ _ hsecond
              have h3 : abort_hash_step i2
                  (if decide (sc > st.best) = true ∧ decide (sc > st.alpha) = true ∧
                      is_pv = true then pv_update i2 ply sa.act else i2) := by
                split
                · exact ah_pv_update i2 ply sa.act
                · exact ah_refl i2
              have h012 := ah_trans (ah_trans h1 h2) h3
              split at h
              · simp only [Option.some.injEq] at h
                subst h
                exact ah_trans h012 (ah_cutoff _ _ _ _ _ _ _ _ _ _)
              · split at h
                · have hr := ih _ _ h
                  exact ah_trans h012 hr
                · have hr := ih _ _ h
                  exact ah_trans h012 hr

/-- Writing the per-ply eval is a C9 step. -/
theorem ah_plies (i : SearchInfo) (f : Nat → PlyInfo) :
    abort_hash_step i { i with plies := f } := fun h => ⟨h, rfl⟩

/-- Writing the mobility sample is a C9 step. -/
theorem ah_mobility (i : SearchInfo) (f : Nat → Option (Nat × Team)) :
    abort_hash_step i { i with mobility := f } := fun h => ⟨h, rfl⟩

/-- After the move loop, `search_rest` pops what it pushed on every
completion path that ends with the abort flag clear. -/
theorem search_rest_hashes {B : Type} (R : Rules B)
    (child : B → SearchInfo → Int → Nat → Int → Int → Bool → Option (Int × SearchInfo))
    (hchild : ∀ b i d p a bb pv r i2, child b i d p a bb pv = some (r, i2) →
      abort_hash_step i i2)
    (board : B) (info : SearchInfo) (depth : Int) (ply : Nat) (alpha beta : Int)
    (is_pv : Bool) (ev : Int) (hash : Nat) (tt_index : Nat)
    (previous two_ply fbm : Option Action) (actions : List Action) (r : Int) (i2 : SearchInfo)
    (h : search_rest child R board info depth ply alpha beta is_pv ev hash tt_index
      previous two_ply fbm actions = some (r, i2)) :
    abort_hash_step info i2 := by
  simp only [search_rest] at h
  split at h
  · exact absurd h (by simp)
  · rename_i st hloop
    have hstep := search_loop_hashes R board depth ply beta is_pv ev previous two_ply _
      child hchild _ _ _ hloop
    split at h
    · simp only [Option.some.injEq, Prod.mk.injEq] at h
      obtain ⟨-, hh⟩ := h
      subst hh
      intro hab
      obtain ⟨h1, h2⟩ := hstep hab
      refine ⟨h1, ?_⟩
      rw [show ({ st.info with hashes := st.info.hashes.tail } : SearchInfo).hashes
        = st.info.hashes.tail from rfl, h2]
      rfl
    · simp only [Option.some.injEq, Prod.mk.injEq] at h
      obtain ⟨-, hh⟩ := h
      subst hh
      intro hab
      obtain ⟨h1, h2⟩ := hstep hab
      refine ⟨h1, ?_⟩
      rw [show ({ st.info with hashes := st.info.hashes.tail } : SearchInfo).hashes
        = st.info.hashes.tail from rfl, h2]
      rfl
    · split at h
      · rename_i habt
        simp only [Option.some.injEq, Prod.mk.injEq] at h
        obtain ⟨-, hh⟩ := h
        subst hh
        intro hab
        exact absurd habt (by rw [hab]; simp)
      · split at h
        · simp only [Option.some.injEq, Prod.mk.injEq] at h
          obtain ⟨-, hh⟩ := h
          subst hh
          intro hab
          obtain ⟨h1, h2⟩ := hstep hab
          refine ⟨h1, ?_⟩
          show st.info.hashes.tail = info.hashes
          rw [h2]
          rfl
        · simp only [Option.some.injEq, Prod.mk.injEq] at h
          obtain ⟨-, hh⟩ := h
          subst hh
          intro hab
          obtain ⟨h1, h2⟩ := hstep hab
          refine ⟨h1, ?_⟩
          show st.info.hashes.tail = info.hashes
          rw [h2]
          rfl

/-- The null-move phase is a C9 step provided the recursive search is. -/
theorem search_main_hashes {B : Type} (R : Rules B)
    (child : B → SearchInfo → Int → Nat → Int → Int → Bool → Option (Int × SearchInfo))
    (hchild : ∀ b i d p a bb pv r i2, child b i d p a bb pv = some (r, i2) →
      abort_hash_step i i2)
    (board : B) (info : SearchInfo) (depth : Int) (ply : Nat) (alpha beta : Int)
    (is_pv : Bool) (ev : Int) (hash : Nat) (tt_index : Nat)
    (previous two_ply fbm : Option Action) (actions : List Action) (null_last_move : Bool)
    (r : Int) (i2 : SearchInfo)
    (h : search_main child R board info depth ply alpha beta is_pv ev hash tt_index
      previous two_ply fbm actions null_last_move = some (r, i2)) :
    abort_hash_step info i2 := by
  simp only [search_main] at h
  split at h
  · split at h
    · split at h
      · exact absurd h (by simp)
      · rename_i r0 iN hnull
        have hN := hchild _ _ _ _ _ _ _ _ _ hnull
        split at h
        · simp only [Option.some.injEq, Prod.mk.injEq] at h
          obtain ⟨-, hh⟩ := h
          exact hh ▸ hN
        · exact ah_trans hN (search_rest_hashes R _ hchild _ _ _ _ _ _ _ _ _ _ _ _ _ _ _ _ h)
    · exact search_rest_hashes R _ hchild _ _ _ _ _ _ _ _ _ _ _ _ _ _ _ _ h
  · exact search_rest_hashes R _ hchild _ _ _ _ _ _ _ _ _ _ _ _ _ _ _ _ h

/-- The search is a C9 step: if a call completes with the abort flag clear,
it entered with it clear and left the repetition stack exactly as found. -/
theorem search_hashes {B : Type} (R : Rules B) :
    ∀ (fuel : Nat) (b : B) (info : SearchInfo) (d : Int) (p : Nat) (a bb : Int) (pv : Bool)
      (r : Int) (i2 : SearchInfo),
      search R fuel b info d p a bb pv = some (r, i2) → abort_hash_step info i2 := by
  intro fuel
  induction fuel with
  | zero =>
    intro b info d p a bb pv r i2 h
    exact absurd h (by simp [search])
  | succ fuel ih =>
    intro b info d p a bb pv r i2 h
    have hchild : ∀ b i d p a bb pv r i2, search R fuel b i d p a bb pv = some (r, i2) →
        abort_hash_step i i2 := fun b i d p a bb pv r i2 hh => ih b i d p a bb pv r i2 hh
    simp only [search] at h
    by_cases hc : d ≥ 4 ∧ info.abort = false
    · rw [if_pos hc] at h
      split at h
      · simp only [Option.some.injEq, Prod.mk.injEq] at h
        obtain ⟨-, hh⟩ := h
        subst hh
        exact fun _ => ⟨hc.2, rfl⟩
      · split at h
        · have hq := ah_of_po (quiescence_frame R fuel _ _ _ _ _ _ _ h)
          refine ah_trans ?_ hq
          exact fun _ => ⟨hc.2, rfl⟩
        · split at h
          · simp only [Option.some.injEq, Prod.mk.injEq] at h
            obtain ⟨-, hh⟩ := h
            subst hh
            exact fun _ => ⟨hc.2, rfl⟩
          · split at h
            · simp only [Option.some.injEq, Prod.mk.injEq] at h
              obtain ⟨-, hh⟩ := h
              subst hh
              exact fun _ => ⟨hc.2, rfl⟩
            · split at h
              · simp only [Option.some.injEq, Prod.mk.injEq] at h
                obtain ⟨-, hh⟩ := h
                subst hh
                exact fun _ => ⟨hc.2, rfl⟩
              · have hm := search_main_hashes R _ hchild _ _ _ _ _ _ _ _ _ _ _ _ _ _ _ _ _ h
                refine ah_trans ?_ hm
                exact fun _ => ⟨hc.2, rfl⟩
    · rw [if_neg hc] at h
      split at h
      · simp only [Option.some.injEq, Prod.mk.injEq] at h
        obtain ⟨-, hh⟩ := h
        subst hh
        exact fun hab => ⟨hab, rfl⟩
      · split at h
        · have hq := ah_of_po (quiescence_frame R fuel _ _ _ _ _ _ _ h)
          exact ah_trans (fun hab => ⟨hab, rfl⟩) hq
        · split at h
          · simp only [Option.some.injEq, Prod.mk.injEq] at h
            obtain ⟨-, hh⟩ := h
            subst hh
            exact fun hab => ⟨hab, rfl⟩
          · split at h
            · simp only [Option.some.injEq, Prod.mk.injEq] at h
              obtain ⟨-, hh⟩ := h
              subst hh
              exact fun hab => ⟨hab, rfl⟩
            · split at h
              · simp only [Option.some.injEq, Prod.mk.injEq] at h
                obtain ⟨-, hh⟩ := h
                subst hh
                exact fun hab => ⟨hab, rfl⟩
              · have hm := search_main_hashes R _ hchild _ _ _ _ _ _ _ _ _ _ _ _ _ _ _ _ _ h
                exact ah_trans (fun hab => ⟨hab, rfl⟩) hm

/-- C9 (corrected): the spec claims every `search` call leaves `info.hashes`
exactly as it found it.  That is false for the mid-loop abort return at
`search/mod.rs` line 457, which returns without popping the hash pushed at
line 275.  The amended claim proved here: whenever a `search` call completes
with the abort flag clear, the repetition stack is restored to its entry
value (and the flag was clear at entry). -/
theorem C9_hashes_balanced {B : Type} (R : Rules B) (fuel : Nat) (b : B)
    (info : SearchInfo) (d : Int) (p : Nat) (a bb : Int) (pv : Bool)
    (r : Int) (i2 : SearchInfo)
    (h : search R fuel b info d p a bb pv = some (r, i2))
    (hab : i2.abort = false) :
    info.abort = false ∧ i2.hashes = info.hashes :=
  search_hashes R fuel b info d p a bb pv r i2 h hab

/-- Witness for C9: a completed search on the trivial board finishes with the
abort flag clear and the (empty) repetition stack restored. -/
theorem C9_hashes_balanced_witness :
    ∃ p : Int × SearchInfo,
      search trivialRules 2 () infoT 1 0 (-1000000) 1000000 true = some p ∧
      infoT.abort = false ∧ p.2.hashes = infoT.hashes := by
  have hs : (search trivialRules 2 () infoT 1 0 (-1000000) 1000000 true).isSome = true := by
    decide
  have hab : (search trivialRules 2 () infoT 1 0 (-1000000) 1000000 true).map
      (fun q => q.2.abort) = some false := by decide
  obtain ⟨p, hp⟩ := Option.isSome_iff_exists.mp hs
  rw [hp] at hab
  simp only [Option.map_some', Option.some.injEq] at hab
  exact ⟨p, hp, C9_hashes_balanced trivialRules 2 () infoT 1 0 (-1000000) 1000000 true p.1 p.2
    (by rw [hp]) hab⟩

/-- Counterexample to the literal C9: with the clock crossing the deadline
mid-search (`R9`, `info9`), the search returns through the mid-loop abort
exit and leaves hash 7 on the previously empty repetition stack. -/
theorem C9_counterexample :
    (search R9 3 () info9 5 0 (-1000000) 1000000 true).map
      (fun p => (p.1, p.2.abort, p.2.hashes)) = some (0, true, [7]) ∧
    info9.hashes = [] := by
  exact ⟨by decide, rfl⟩

/-- Reflexivity of the C7 inner step relation. -/
theorem c7i_refl (i : SearchInfo) : c7_inner_step i i := ⟨rfl, rfl⟩

/-- Transitivity of the C7 inner step relation. -/
theorem c7i_trans {i j k : SearchInfo} (h1 : c7_inner_step i j) (h2 : c7_inner_step j k) :
    c7_inner_step i k := ⟨h2.1.trans h1.1, h2.2.trans h1.2⟩

/-- A frame completed strictly below the root is a C7 inner step. -/
theorem c7i_of_frame {d : Int} {i : SearchInfo} {r : Int} {j : SearchInfo}
    (h : c7_frame d i r j) (hd : d < i.root_depth) : c7_inner_step i j :=
  ⟨h.1, h.2.1 hd⟩

/-- A frame's guarantee is preserved by prefixing steps that keep the root
depth and the stored best move. -/
theorem c7_frame_pre {d : Int} {i j k : SearchInfo} {r : Int}
    (hj : c7_frame d j r k) (h1 : j.root_depth = i.root_depth)
    (h2 : j.best_move = i.best_move) : c7_frame d i r k := by
  refine ⟨hj.1.trans h1, fun hlt => ?_, fun hab => ?_, ?_⟩
  · exact (hj.2.1 (by rw [h1]; exact hlt)).trans h2
  · exact ⟨(hj.2.2.1 hab).1, (hj.2.2.1 hab).2.trans h2⟩
  · rcases hj.2.2.2 with hx | hx
    · exact Or.inl (hx.trans h2)
    · exact Or.inr hx

/-- Bumping `nodes` is a C7 inner step. -/
theorem c7i_nodes (i : SearchInfo) (n : Nat) : c7_inner_step i { i with nodes := n } :=
  ⟨rfl, rfl⟩

/-- The PV splice is a C7 inner step. -/
theorem c7i_pv_update (i : SearchInfo) (ply : Nat) (act : Action) :
    c7_inner_step i (pv_update i ply act) := by
  obtain ⟨h1, h2, -⟩ := pv_update_proj i ply act
  exact ⟨h1, h2⟩

/-- The cutoff bookkeeping is a C7 inner step. -/
theorem c7i_cutoff (i : SearchInfo) (team : Team) (act : Action) (depth : Int) (ply : Nat)
    (previous two_ply : Option Action) (quiets noisies : List Action) (noisy : Bool) :
    c7_inner_step i (cutoff_updates i team act depth ply previous two_ply quiets noisies noisy) := by
  obtain ⟨h1, h2, -⟩ := cutoff_updates_proj i team act depth ply previous two_ply quiets noisies noisy
  exact ⟨h1, h2⟩

/-- The LMR reduction is never negative. -/
theorem lmr_r_nonneg {B : Type} (R : Rules B) (board : B) (info : SearchInfo) (act : Action)
    (previous two_ply : Option Action) (noisy : Bool) (depth : Int) (index : Nat) :
    0 ≤ lmr_r R board info act previous two_ply noisy depth index := by
  unfold lmr_r
  split
  · exact le_max_right _ 0
  · exact le_refl 0

/-- The first PVS stage is a C7 inner step when the recursion is a C7 frame:
both of its child calls run strictly below the root. -/
theorem pvs_first_c7 {B : Type}
    (child : B → SearchInfo → Int → Nat → Int → Int → Bool → Option (Int × SearchInfo))
    (hchild : ∀ b i d p a bb pv r i2, child b i d p a bb pv = some (r, i2) →
      d ≤ i.root_depth → c7_frame d i r i2)
    (played : B) (info : SearchInfo) (new_depth r : Int) (ply : Nat) (alpha : Int)
    (lmr : Bool) (is_pv : Bool) (index : Nat) (s : Int) (i2 : SearchInfo)
    (hr : 0 ≤ r) (hd : new_depth < info.root_depth)
    (h : pvs_first child played info new_depth r ply alpha lmr is_pv index = some (s, i2)) :
    c7_inner_step info i2 := by
  simp only [pvs_first] at h
  split at h
  · split at h
    · exact absurd h (by simp)
    · rename_i r1 i1 hc1
      have hd1 : new_depth - r < info.root_depth := by omega
      have s1 := c7i_of_frame (hchild _ _ _ _ _ _ _ _ _ hc1 (le_of_lt hd1)) hd1
      split at h
      · split at h
        · exact absurd h (by simp)
        · rename_i r2 i2h hc2
          have hd2 : new_depth < i1.root_depth := by rw [s1.1]; exact hd
          have s2 := c7i_of_frame (hchild _ _ _ _ _ _ _ _ _ hc2 (le_of_lt hd2)) hd2
          simp only [Option.some.injEq, Prod.mk.injEq] at h
          obtain ⟨-, hh⟩ := h
          exact hh ▸ c7i_trans s1 s2
      · simp only [Option.some.injEq, Prod.mk.injEq] at h
        obtain ⟨-, hh⟩ := h
        exact hh ▸ s1
  · split at h
    · split at h
      · exact absurd h (by simp)
      · rename_i r1 i1 hc1
        have s1 := c7i_of_frame (hchild _ _ _ _ _ _ _ _ _ hc1 (le_of_lt hd)) hd
        simp only [Option.some.injEq, Prod.mk.injEq] at h
        obtain ⟨-, hh⟩ := h
        exact hh ▸ s1
    · simp only [Option.some.injEq, Prod.mk.injEq] at h
      obtain ⟨-, hh⟩ := h
      exact hh ▸ c7i_refl info

/-- The second PVS stage is a C7 inner step when the recursion is a C7
frame: its re-search runs strictly below the root. -/
theorem pvs_second_c7 {B : Type}
    (child : B → SearchInfo → Int → Nat → Int → Int → Bool → Option (Int × SearchInfo))
    (hchild : ∀ b i d p a bb pv r i2, child b i d p a bb pv = some (r, i2) →
      d ≤ i.root_depth → c7_frame d i r i2)
    (played : B) (i1 : SearchInfo) (score1 new_depth : Int) (ply : Nat)
    (alpha beta : Int) (is_pv : Bool) (index : Nat) (s : Int) (i2 : SearchInfo)
    (hd : new_depth < i1.root_depth)
    (h : pvs_second child played i1 score1 new_depth ply alpha beta is_pv index = some (s, i2)) :
    c7_inner_step i1 i2 := by
  simp only [pvs_second] at h
  split at h
  · split at h
    · exact absurd h (by simp)
    · rename_i r2 i2h hc2
      have s2 := c7i_of_frame (hchild _ _ _ _ _ _ _ _ _ hc2 (le_of_lt hd)) hd
      simp only [Option.some.injEq, Prod.mk.injEq] at h
      obtain ⟨-, hh⟩ := h
      exact hh ▸ s2
  · simp only [Option.some.injEq, Prod.mk.injEq] at h
    obtain ⟨-, hh⟩ := h
    exact hh ▸ c7i_refl i1

/-- The main move loop, viewed by claim C7: it preserves the root depth and
the stored best move (its children run strictly below the root), the abort
flag can only come up after at least one legal move was collected, and the
legal-move list only grows. -/
theorem search_loop_c7 {B : Type} (R : Rules B) (board : B) (depth : Int) (ply : Nat)
    (beta : Int) (is_pv : Bool) (ev : Int) (previous two_ply : Option Action) (root_node : Bool)
    (child : B → SearchInfo → Int → Nat → Int → Int → Bool → Option (Int × SearchInfo))
    (hchild : ∀ b i d p a bb pv r i2, child b i d p a bb pv = some (r, i2) →
      d ≤ i.root_depth → c7_frame d i r i2) :
    ∀ (acts : List ScoredAction) (st st' : LoopSt),
      search_loop child R board depth ply beta is_pv ev previous two_ply root_node acts st =
        some st' →
      depth ≤ st.info.root_depth →
      c7_inner_step st.info st'.info ∧
      (st'.info.abort = true → st.info.abort = true ∨ st'.legals ≠ []) ∧
      (st.legals ≠ [] → st'.legals ≠ []) := by
  intro acts
  induction acts with
  | nil =>
    intro st st' h hd
    simp only [search_loop, Option.some.injEq] at h
    cases h
    exact ⟨c7i_refl _, fun hab => Or.inl hab, fun hx => hx⟩
  | cons sa rest ih =>
    intro st st' h hd
    simp only [search_loop] at h
    split at h
    · exact ih _ _ h hd
    · split at h
      · have hr := ih _ _ h hd
        have hne : st.legals ++ [sa.act] ≠ [] := by simp
        exact ⟨hr.1, fun _ => Or.inr (hr.2.2 hne), fun _ => hr.2.2 hne⟩
      · split at h
        · have hr := ih _ _ h hd
          have hne : st.legals ++ [sa.act] ≠ [] := by simp
          exact ⟨hr.1, fun _ => Or.inr (hr.2.2 hne), fun _ => hr.2.2 hne⟩
        · split at h
          · exact absurd h (by simp)
          · rename_i score1 i1 hfirst
            have s1p : c7_inner_step { st.info with nodes := st.info.nodes + 1 } i1 := by
              refine pvs_first_c7 child hchild _ _ _ _ _ _ _ _ _ _ _ ?_ ?_ hfirst
              · exact lmr_r_nonneg R board st.info sa.act previous two_ply
                  (is_noisy R board sa.act) depth _
              · show depth - 1 < st.info.root_depth
                omega
            have s1 : c7_inner_step st.info i1 :=
              c7i_trans (c7i_nodes st.info (st.info.nodes + 1)) s1p
            have hrd1 : i1.root_depth = st.info.root_depth := s1.1
            split at h
            · exact absurd h (by simp)
            · rename_i sc i2 hsecond
              have s2 : c7_inner_step i1 i2 := by
                refine pvs_second_c7 child hchild _ _ _ _ _ _ _ _ _ _ _ ?_ hsecond
                rw [hrd1]
                omega
              have s3 : c7_inner_step i2
                  (if decide (sc > st.best) = true ∧ decide (sc > st.alpha) = true ∧
                      is_pv = true then pv_update i2 ply sa.act else i2) := by
                split
                · exact c7i_pv_update i2 ply sa.act
                · exact c7i_refl i2
              have s012 := c7i_trans (c7i_trans s1 s2) s3
              have hne : st.legals ++ [sa.act] ≠ [] := by simp
              split at h
              · simp only [Option.some.injEq] at h
                subst h
                refine ⟨c7i_trans s012 (c7i_cutoff _ _ _ _ _ _ _ _ _ _), ?_, ?_⟩
                · exact fun _ => Or.inr hne
                · exact fun _ => hne
              · split at h
                · have hr := ih _ _ h (le_of_le_of_eq hd s012.1.symm)
                  exact ⟨c7i_trans s012 hr.1, fun _ => Or.inr (hr.2.2 hne), fun _ => hr.2.2 hne⟩
                · have hr := ih _ _ h (le_of_le_of_eq hd s012.1.symm)
                  exact ⟨c7i_trans s012 hr.1, fun _ => Or.inr (hr.2.2 hne), fun _ => hr.2.2 hne⟩

/-- After the move loop, `search_rest` is a C7 frame: terminal wins are
impossible on an aborted path (with legal moves collected the game is not
a win; without any, the no-win side conditions apply), the mid-loop abort
exit returns 0 without touching the stored best move, and the root best
move is only ever overwritten with an actual move on an unaborted
completion. -/
theorem search_rest_c7 {B : Type} (R : Rules B)
    (child : B → SearchInfo → Int → Nat → Int → Int → Bool → Option (Int × SearchInfo))
    (hchild : ∀ b i d p a bb pv r i2, child b i d p a bb pv = some (r, i2) →
      d ≤ i.root_depth → c7_frame d i r i2)
    (board : B) (info : SearchInfo) (depth : Int) (ply : Nat) (alpha beta : Int)
    (is_pv : Bool) (ev : Int) (hash : Nat) (tt_index : Nat)
    (previous two_ply fbm : Option Action) (actions : List Action) (r : Int) (i2 : SearchInfo)
    (HgsB : ∀ l t, l ≠ [] → R.game_state board l ≠ GameState.win t)
    (hws : info.abort = true → ∀ t, R.game_state board [] ≠ GameState.win t)
    (hd : depth ≤ info.root_depth)
    (h : search_rest child R board info depth ply alpha beta is_pv ev hash tt_index
      previous two_ply fbm actions = some (r, i2)) :
    c7_frame depth info r i2 := by
  simp only [search_rest] at h
  split at h
  · exact absurd h (by simp)
  · rename_i st hloop
    have hst := search_loop_c7 R board depth ply beta is_pv ev previous two_ply _
      child hchild _ _ _ hloop hd
    have hrd : st.info.root_depth = info.root_depth := hst.1.1
    have hbm : st.info.best_move = info.best_move := hst.1.2
    split at h
    · rename_i t heq
      simp only [Option.some.injEq, Prod.mk.injEq] at h
      obtain ⟨h1, h2⟩ := h
      subst h2
      refine ⟨hrd, fun _ => hbm, fun hab => ?_, Or.inl hbm⟩
      have habst : st.info.abort = true := hab
      rcases hst.2.1 habst with hab0 | hne
      · by_cases hle : st.legals = []
        · rw [hle] at heq
          exact absurd heq (hws hab0 t)
        · exact absurd heq (HgsB st.legals t hle)
      · exact absurd heq (HgsB st.legals t hne)
    · simp only [Option.some.injEq, Prod.mk.injEq] at h
      obtain ⟨h1, h2⟩ := h
      subst h2
      exact ⟨hrd, fun _ => hbm, fun _ => ⟨h1.symm, hbm⟩, Or.inl hbm⟩
    · split at h
      · rename_i habt
        simp only [Option.some.injEq, Prod.mk.injEq] at h
        obtain ⟨h1, h2⟩ := h
        subst h2
        exact ⟨hrd, fun _ => hbm, fun _ => ⟨h1.symm, hbm⟩, Or.inl hbm⟩
      · rename_i hnab
        split at h
        · rename_i hw
          simp only [Option.some.injEq, Prod.mk.injEq] at h
          obtain ⟨h1, h2⟩ := h
          subst h2
          refine ⟨hrd, fun hlt => ?_, fun hab => absurd hab hnab, Or.inr ?_⟩
          · have hdep : depth = info.root_depth := of_decide_eq_true hw.1
            exact absurd hdep (by omega)
          · exact hw.2
        · rename_i hnw
          simp only [Option.some.injEq, Prod.mk.injEq] at h
          obtain ⟨h1, h2⟩ := h
          subst h2
          exact ⟨hrd, fun _ => hbm, fun hab => absurd hab hnab, Or.inl hbm⟩

/-- The null-move phase is a C7 frame when the recursion is: the null-move
child runs strictly below the root, a fail-high after an aborted null
child returns 0, and the fall-through inherits `search_rest`'s guarantee.
The frame enters with the abort flag clear (the entry bail-out precedes
it). -/
theorem search_main_c7 {B : Type} (R : Rules B)
    (child : B → SearchInfo → Int → Nat → Int → Int → Bool → Option (Int × SearchInfo))
    (hchild : ∀ b i d p a bb pv r i2, child b i d p a bb pv = some (r, i2) →
      d ≤ i.root_depth → c7_frame d i r i2)
    (board : B) (info : SearchInfo) (depth : Int) (ply : Nat) (alpha beta : Int)
    (is_pv : Bool) (ev : Int) (hash : Nat) (tt_index : Nat)
    (previous two_ply fbm : Option Action) (actions : List Action) (null_last_move : Bool)
    (r : Int) (i2 : SearchInfo)
    (h : search_main child R board info depth ply alpha beta is_pv ev hash tt_index
      previous two_ply fbm actions null_last_move = some (r, i2))
    (HgsB : ∀ l t, l ≠ [] → R.game_state board l ≠ GameState.win t)
    (HnullB : R.is_legal (R.play_null board) = true →
      ∀ t, R.game_state board [] ≠ GameState.win t)
    (hd : depth ≤ info.root_depth) (hab0 : info.abort = false) :
    c7_frame depth info r i2 := by
  simp only [search_main] at h
  split at h
  · rename_i hcond
    split at h
    · rename_i hlegal
      split at h
      · exact absurd h (by simp)
      · rename_i r0 iN hnm
        have htd : 0 ≤ rdiv depth 5 := Int.tdiv_nonneg (by omega) (by norm_num)
        have hnm_lt : depth - (3 + rdiv depth 5) < info.root_depth := by
          have hd3 : depth ≥ 3 := hcond.2.1
          omega
        have hframe := hchild _ _ _ _ _ _ _ _ _ hnm (le_of_lt hnm_lt)
        have hbmN : iN.best_move = info.best_move := hframe.2.1 hnm_lt
        have hrdN : iN.root_depth = info.root_depth := hframe.1
        split at h
        · rename_i hns
          simp only [Option.some.injEq, Prod.mk.injEq] at h
          obtain ⟨h1, h2⟩ := h
          subst h2
          refine ⟨hrdN, fun _ => hbmN, fun hab => ?_, Or.inl hbmN⟩
          have hr0 := (hframe.2.2.1 hab).1
          subst hr0
          refine ⟨?_, hbmN⟩
          rw [← h1]
          rw [if_neg (by decide : ¬((-(0 : Int)) > rdiv MAX 2))]
          decide
        · have hsr := search_rest_c7 R child hchild board iN depth ply alpha beta is_pv ev
            hash tt_index previous two_ply fbm actions r i2 HgsB (fun _ => HnullB hlegal)
            (by rw [hrdN]; exact hd) h
          exact c7_frame_pre hsr hrdN hbmN
    · exact search_rest_c7 R child hchild board info depth ply alpha beta is_pv ev hash
        tt_index previous two_ply fbm actions r i2 HgsB
        (fun habI => absurd habI (by rw [hab0]; exact Bool.false_ne_true)) hd h
  · exact search_rest_c7 R child hchild board info depth ply alpha beta is_pv ev hash
      tt_index previous two_ply fbm actions r i2 HgsB
      (fun habI => absurd habI (by rw [hab0]; exact Bool.false_ne_true)) hd h

/-- Every `search` call is a C7 frame, provided no game state with legal
moves is a win and no position whose null move is legal is a win with no
moves (both hold of chess: the former is a checkmate with legal moves, the
latter a checkmate out of check). -/
theorem search_c7 {B : Type} (R : Rules B)
    (Hgs : ∀ b l t, l ≠ [] → R.game_state b l ≠ GameState.win t)
    (Hnull : ∀ b t, R.is_legal (R.play_null b) = true →
      R.game_state b [] ≠ GameState.win t) :
    ∀ (fuel : Nat) (b : B) (info : SearchInfo) (d : Int) (p : Nat) (a bb : Int) (pv : Bool)
      (r : Int) (i2 : SearchInfo),
      search R fuel b info d p a bb pv = some (r, i2) → d ≤ info.root_depth →
      c7_frame d info r i2 := by
  intro fuel
  induction fuel with
  | zero =>
    intro b info d p a bb pv r i2 h hd
    exact absurd h (by simp [search])
  | succ fuel ih =>
    intro b info d p a bb pv r i2 h hd
    have hchild : ∀ b i d p a bb pv r i2, search R fuel b i d p a bb pv = some (r, i2) →
        d ≤ i.root_depth → c7_frame d i r i2 :=
      fun b i d p a bb pv r i2 hh hdd => ih b i d p a bb pv r i2 hh hdd
    simp only [search] at h
    by_cases hc : d ≥ 4 ∧ info.abort = false
    · rw [if_pos hc] at h
      split at h
      · simp only [Option.some.injEq, Prod.mk.injEq] at h
        obtain ⟨h1, h2⟩ := h
        subst h2
        exact ⟨rfl, fun _ => rfl, fun _ => ⟨h1.symm, rfl⟩, Or.inl rfl⟩
      · rename_i hnabE
        split at h
        · rename_i hd0
          exact absurd hd0 (by have := hc.1; omega)
        · split at h
          · rename_i hrfp
            exact absurd hrfp.2.1 (by have := hc.1; omega)
          · split at h
            · simp only [Option.some.injEq, Prod.mk.injEq] at h
              obtain ⟨h1, h2⟩ := h
              subst h2
              exact ⟨rfl, fun _ => rfl, fun _ => ⟨h1.symm, rfl⟩, Or.inl rfl⟩
            · split at h
              · simp only [Option.some.injEq, Prod.mk.injEq] at h
                obtain ⟨h1, h2⟩ := h
                subst h2
                exact ⟨rfl, fun _ => rfl, fun hab => absurd hab hnabE, Or.inl rfl⟩
              · have hm := search_main_c7 R _ hchild _ _ _ _ _ _ _ _ _ _ _ _ _ _ _ _ _ h
                  (fun l t => Hgs b l t) (fun hleg t => Hnull b t hleg) hd
                  ((Bool.not_eq_true _) ▸ hnabE)
                exact c7_frame_pre hm rfl rfl
    · rw [if_neg hc] at h
      split at h
      · simp only [Option.some.injEq, Prod.mk.injEq] at h
        obtain ⟨h1, h2⟩ := h
        subst h2
        exact ⟨rfl, fun _ => rfl, fun _ => ⟨h1.symm, rfl⟩, Or.inl rfl⟩
      · rename_i hnab
        split at h
        · have hq := quiescence_frame R fuel _ _ _ _ _ _ _ h
          obtain ⟨p1, p2, -, -, -, -, -, -, -, -, -, -, -, -, p15, -, -⟩ := hq
          exact ⟨p1, fun _ => p2, fun hab => absurd (p15 ▸ hab) hnab, Or.inl p2⟩
        · split at h
          · simp only [Option.some.injEq, Prod.mk.injEq] at h
            obtain ⟨h1, h2⟩ := h
            subst h2
            exact ⟨rfl, fun _ => rfl, fun hab => absurd hab hnab, Or.inl rfl⟩
          · split at h
            · simp only [Option.some.injEq, Prod.mk.injEq] at h
              obtain ⟨h1, h2⟩ := h
              subst h2
              exact ⟨rfl, fun _ => rfl, fun _ => ⟨h1.symm, rfl⟩, Or.inl rfl⟩
            · split at h
              · simp only [Option.some.injEq, Prod.mk.injEq] at h
                obtain ⟨h1, h2⟩ := h
                subst h2
                exact ⟨rfl, fun _ => rfl, fun hab => absurd hab hnab, Or.inl rfl⟩
              · have hm := search_main_c7 R _ hchild _ _ _ _ _ _ _ _ _ _ _ _ _ _ _ _ _ h
                  (fun l t => Hgs b l t) (fun hleg t => Hnull b t hleg) hd
                  ((Bool.not_eq_true _) ▸ hnab)
                exact c7_frame_pre hm rfl rfl

/-- Claim C7: under the chess realism side conditions (a game state with
legal moves collected is never a win, and a position whose null move is
legal is never a win without moves) and a call depth within the root
depth, (1) a frame entered with the abort flag set returns 0 with the
state untouched; (2) a frame that exits with the abort flag set returned 0
and did not mutate the stored `best_move`; (3) frames below the root never
mutate the stored `best_move`; (4) the stored `best_move` is only ever
overwritten with an actual move, never cleared — so the previous completed
depth's answer survives an abort. -/
theorem C7_abort_semantics {B : Type} (R : Rules B)
    (Hgs : ∀ b l t, l ≠ [] → R.game_state b l ≠ GameState.win t)
    (Hnull : ∀ b t, R.is_legal (R.play_null b) = true →
      R.game_state b [] ≠ GameState.win t)
    (fuel : Nat) (b : B) (info : SearchInfo) (d : Int) (p : Nat) (a bb : Int) (pv : Bool)
    (r : Int) (i2 : SearchInfo)
    (h : search R fuel b info d p a bb pv = some (r, i2))
    (hd : d ≤ info.root_depth) :
    (info.abort = true → r = 0 ∧ i2 = info) ∧
    (i2.abort = true → r = 0 ∧ i2.best_move = info.best_move) ∧
    (d < info.root_depth → i2.best_move = info.best_move) ∧
    (i2.best_move = info.best_move ∨ i2.best_move.isSome = true) := by
  have hf := search_c7 R Hgs Hnull fuel b info d p a bb pv r i2 h hd
  refine ⟨?_, hf.2.2.1, hf.2.1, hf.2.2.2⟩
  intro hab
  cases fuel with
  | zero => exact absurd h (by simp [search])
  | succ fuel =>
    rw [search_abort_entry R fuel b info d p a bb pv hab] at h
    simp only [Option.some.injEq, Prod.mk.injEq] at h
    exact ⟨h.1.symm, h.2.symm⟩

/-- Witness for C7: a completed search on the trivial board satisfies the
abort/best-move guarantees at concrete inputs. -/
theorem C7_abort_semantics_witness :
    ∃ q : Int × SearchInfo,
      search trivialRules 2 () infoT 1 0 (-1000000) 1000000 true = some q ∧
      (q.2.abort = true → q.1 = 0 ∧ q.2.best_move = infoT.best_move) ∧
      (q.2.best_move = infoT.best_move ∨ q.2.best_move.isSome = true) := by
  have hs : (search trivialRules 2 () infoT 1 0 (-1000000) 1000000 true).isSome = true := by
    decide
  obtain ⟨q, hq⟩ := Option.isSome_iff_exists.mp hs
  have hfull := C7_abort_semantics trivialRules
    (fun b l t hne => by simp [trivialRules])
    (fun b t hleg => by simp [trivialRules])
    2 () infoT 1 0 (-1000000) 1000000 true q.1 q.2 (by rw [hq]) (by decide)
  exact ⟨q, hq, hfull.2.1, hfull.2.2.2⟩

/-- Negation swaps the search score bounds (the window is symmetric). -/
theorem bounds_neg {r : Int} (h1 : MIN ≤ r) (h2 : r ≤ MAX) : MIN ≤ -r ∧ -r ≤ MAX := by
  unfold MIN MAX at *
  omega

/-- The transposition-table invariant transfers along an unchanged table. -/
theorem ttinv_eq {i j : SearchInfo} (h : j.tt = i.tt) (hi : TtInv i) : TtInv j :=
  fun n e hn => hi n e (h ▸ hn)

/-- The quiescence move loop keeps its running best inside `[MIN, MAX]`
when it starts there and each child score lies inside. -/
theorem qs_loop_bounds {B : Type}
    (child : B → SearchInfo → Nat → Int → Int → Option (Int × SearchInfo))
    (hchild : ∀ b i p a bb r i2, child b i p a bb = some (r, i2) → MIN ≤ r ∧ r ≤ MAX)
    (R : Rules B) (board : B) (ply : Nat) (beta : Int) :
    ∀ (acts : List ScoredAction) (info : SearchInfo) (best alpha : Int)
      (r : Int) (i2 : SearchInfo),
      qs_loop child R board ply beta acts info best alpha = some (r, i2) →
      MIN ≤ best → best ≤ MAX → MIN ≤ r ∧ r ≤ MAX := by
  intro acts
  induction acts with
  | nil =>
    intro info best alpha r i2 h hb1 hb2
    simp only [qs_loop, Option.some.injEq, Prod.mk.injEq] at h
    obtain ⟨h1, -⟩ := h
    exact ⟨h1 ▸ hb1, h1 ▸ hb2⟩
  | cons sa rest ih =>
    intro info best alpha r i2 h hb1 hb2
    simp only [qs_loop] at h
    split at h
    · exact ih _ _ _ _ _ h hb1 hb2
    · split at h
      · exact absurd h (by simp)
      · rename_i r1 i1 hc1
        have hcb := hchild _ _ _ _ _ _ _ hc1
        have hneg := bounds_neg hcb.1 hcb.2
        have hbb1 : MIN ≤ (if -r1 > best then -r1 else best) := by
          split
          · exact hneg.1
          · exact hb1
        have hbb2 : (if -r1 > best then -r1 else best) ≤ MAX := by
          split
          · exact hneg.2
          · exact hb2
        split at h
        · simp only [Option.some.injEq, Prod.mk.injEq] at h
          obtain ⟨h1, -⟩ := h
          exact ⟨h1 ▸ hbb1, h1 ▸ hbb2⟩
        · exact ih _ _ _ _ _ h hbb1 hbb2

/-- Quiescence returns a score in `[MIN, MAX]` whenever the static
evaluation oracle stays in `[MIN, MAX]`. -/
theorem quiescence_bounds {B : Type} (R : Rules B) (hEval : EvalOk R) :
    ∀ (fuel : Nat) (b : B) (info : SearchInfo) (ply : Nat) (alpha beta : Int)
      (r : Int) (i2 : SearchInfo),
      quiescence R fuel b info ply alpha beta = some (r, i2) → MIN ≤ r ∧ r ≤ MAX := by
  intro fuel
  induction fuel with
  | zero =>
    intro b info ply alpha beta r i2 h
    exact absurd h (by simp [quiescence])
  | succ fuel ih =>
    intro b info ply alpha beta r i2 h
    have hev := hEval b info.mobility ply
    simp only [quiescence] at h
    split at h
    · simp only [Option.some.injEq, Prod.mk.injEq] at h
      obtain ⟨h1, -⟩ := h
      exact ⟨h1 ▸ hev.1, h1 ▸ hev.2⟩
    · exact qs_loop_bounds _ (fun b i p a bb r i2 hc => ih b i p a bb r i2 hc)
        R b ply beta _ _ _ _ _ _ h hev.1 hev.2

/-- The first PVS stage returns a score in `[MIN, MAX]` and keeps the
transposition-table invariant, under a sane window and ply budget. -/
theorem pvs_first_bounds {B : Type}
    (child : B → SearchInfo → Int → Nat → Int → Int → Bool → Option (Int × SearchInfo))
    (F : Nat)
    (hchild : ∀ b i d p a bb pv r i2, child b i d p a bb pv = some (r, i2) → TtInv i →
      p + F ≤ 2000000 → MIN - 1 ≤ a → a ≤ MAX → MIN ≤ bb → bb ≤ MAX + 1 →
      MIN ≤ r ∧ r ≤ MAX ∧ TtInv i2)
    (played : B) (info : SearchInfo) (new_depth r : Int) (ply : Nat) (alpha : Int)
    (lmr : Bool) (is_pv : Bool) (index : Nat) (s : Int) (i2 : SearchInfo)
    (h : pvs_first child played info new_depth r ply alpha lmr is_pv index = some (s, i2))
    (hply : ply + 1 + F ≤ 2000000) (ha1 : MIN - 1 ≤ alpha) (ha2 : alpha ≤ MAX)
    (hTt : TtInv info) :
    MIN ≤ s ∧ s ≤ MAX ∧ TtInv i2 := by
  have m1 : MIN = -1000000 := rfl
  have m2 : MAX = 1000000 := rfl
  simp only [pvs_first] at h
  split at h
  · split at h
    · exact absurd h (by simp)
    · rename_i r1 i1 hc1
      have hb1 := hchild _ _ _ _ _ _ _ _ _ hc1 hTt hply (by omega) (by omega) (by omega)
        (by omega)
      split at h
      · split at h
        · exact absurd h (by simp)
        · rename_i r2 i2h hc2
          have hb2 := hchild _ _ _ _ _ _ _ _ _ hc2 hb1.2.2 hply (by omega) (by omega)
            (by omega) (by omega)
          simp only [Option.some.injEq, Prod.mk.injEq] at h
          obtain ⟨h1, h2⟩ := h
          subst h2
          have hn := bounds_neg hb2.1 hb2.2.1
          exact ⟨h1 ▸ hn.1, h1 ▸ hn.2, hb2.2.2⟩
      · simp only [Option.some.injEq, Prod.mk.injEq] at h
        obtain ⟨h1, h2⟩ := h
        subst h2
        have hn := bounds_neg hb1.1 hb1.2.1
        exact ⟨h1 ▸ hn.1, h1 ▸ hn.2, hb1.2.2⟩
  · split at h
    · split at h
      · exact absurd h (by simp)
      · rename_i r1 i1 hc1
        have hb1 := hchild _ _ _ _ _ _ _ _ _ hc1 hTt hply (by omega) (by omega) (by omega)
          (by omega)
        simp only [Option.some.injEq, Prod.mk.injEq] at h
        obtain ⟨h1, h2⟩ := h
        subst h2
        have hn := bounds_neg hb1.1 hb1.2.1
        exact ⟨h1 ▸ hn.1, h1 ▸ hn.2, hb1.2.2⟩
    · simp only [Option.some.injEq, Prod.mk.injEq] at h
      obtain ⟨h1, h2⟩ := h
      subst h2
      exact ⟨h1 ▸ le_refl MIN, h1 ▸ (by omega : MIN ≤ MAX), hTt⟩

/-- The second PVS stage returns a score in `[MIN, MAX]` and keeps the
transposition-table invariant, under a sane window and ply budget. -/
theorem pvs_second_bounds {B : Type}
    (child : B → SearchInfo → Int → Nat → Int → Int → Bool → Option (Int × SearchInfo))
    (F : Nat)
    (hchild : ∀ b i d p a bb pv r i2, child b i d p a bb pv = some (r, i2) → TtInv i →
      p + F ≤ 2000000 → MIN - 1 ≤ a → a ≤ MAX → MIN ≤ bb → bb ≤ MAX + 1 →
      MIN ≤ r ∧ r ≤ MAX ∧ TtInv i2)
    (played : B) (i1 : SearchInfo) (score1 new_depth : Int) (ply : Nat)
    (alpha beta : Int) (is_pv : Bool) (index : Nat) (s : Int) (i2 : SearchInfo)
    (h : pvs_second child played i1 score1 new_depth ply alpha beta is_pv index = some (s, i2))
    (hply : ply + 1 + F ≤ 2000000) (ha1 : MIN - 1 ≤ alpha) (ha2 : alpha ≤ MAX)
    (hb1 : MIN ≤ beta) (hb2 : beta ≤ MAX + 1)
    (hs1 : MIN ≤ score1) (hs2 : score1 ≤ MAX) (hTt : TtInv i1) :
    MIN ≤ s ∧ s ≤ MAX ∧ TtInv i2 := by
  have m1 : MIN = -1000000 := rfl
  have m2 : MAX = 1000000 := rfl
  simp only [pvs_second] at h
  split at h
  · split at h
    · exact absurd h (by simp)
    · rename_i r2 i2h hc2
      have hcb := hchild _ _ _ _ _ _ _ _ _ hc2 hTt hply (by omega) (by omega) (by omega)
        (by omega)
      simp only [Option.some.injEq, Prod.mk.injEq] at h
      obtain ⟨h1, h2⟩ := h
      subst h2
      have hn := bounds_neg hcb.1 hcb.2.1
      exact ⟨h1 ▸ hn.1, h1 ▸ hn.2, hcb.2.2⟩
  · simp only [Option.some.injEq, Prod.mk.injEq] at h
    obtain ⟨h1, h2⟩ := h
    subst h2
    exact ⟨h1 ▸ hs1, h1 ▸ hs2, hTt⟩

/-- The main move loop keeps its running best inside `[MIN, MAX]`, its
alpha inside `[MIN - 1, MAX]`, and the transposition-table invariant,
when the recursion does under a sane window. -/
theorem search_loop_bounds {B : Type} (R : Rules B) (board : B) (depth : Int) (ply : Nat)
    (beta : Int) (is_pv : Bool) (ev : Int) (previous two_ply : Option Action) (root_node : Bool)
    (child : B → SearchInfo → Int → Nat → Int → Int → Bool → Option (Int × SearchInfo))
    (F : Nat)
    (hchild : ∀ b i d p a bb pv r i2, child b i d p a bb pv = some (r, i2) → TtInv i →
      p + F ≤ 2000000 → MIN - 1 ≤ a → a ≤ MAX → MIN ≤ bb → bb ≤ MAX + 1 →
      MIN ≤ r ∧ r ≤ MAX ∧ TtInv i2)
    (hply : ply + 1 + F ≤ 2000000) (hb1 : MIN ≤ beta) (hb2 : beta ≤ MAX + 1) :
    ∀ (acts : List ScoredAction) (st st' : LoopSt),
      search_loop child R board depth ply beta is_pv ev previous two_ply root_node acts st =
        some st' →
      TtInv st.info → MIN - 1 ≤ st.alpha → st.alpha ≤ MAX →
      MIN ≤ st.best → st.best ≤ MAX →
      MIN ≤ st'.best ∧ st'.best ≤ MAX ∧ TtInv st'.info := by
  intro acts
  induction acts with
  | nil =>
    intro st st' h hTt ha1 ha2 he1 he2
    simp only [search_loop, Option.some.injEq] at h
    cases h
    exact ⟨he1, he2, hTt⟩
  | cons sa rest ih =>
    intro st st' h hTt ha1 ha2 he1 he2
    simp only [search_loop] at h
    split at h
    · exact ih _ _ h hTt ha1 ha2 he1 he2
    · split at h
      · exact ih _ _ h hTt ha1 ha2 he1 he2
      · split at h
        · exact ih _ _ h hTt ha1 ha2 he1 he2
        · split at h
          · exact absurd h (by simp)
          · rename_i score1 i1 hfirst
            have s1 := pvs_first_bounds child F hchild _ _ _ _ _ _ _ _ _ _ _ hfirst hply
              ha1 ha2 hTt
            split at h
            · exact absurd h (by simp)
            · rename_i sc i2 hsecond
              have s2 := pvs_second_bounds child F hchild _ _ _ _ _ _ _ _ _ _ _ hsecond
                hply ha1 ha2 hb1 hb2 s1.1 s1.2.1 s1.2.2
              have hTt3 : TtInv
                  (if decide (sc > st.best) = true ∧ decide (sc > st.alpha) = true ∧
                      is_pv = true then pv_update i2 ply sa.act else i2) := by
                split
                · exact ttinv_eq (pv_update_proj i2 ply sa.act).2.2.2.2.1 s2.2.2
                · exact s2.2.2
              have hbe1 : MIN ≤ (if decide (sc > st.best) = true then sc else st.best) := by
                split
                · exact s2.1
                · exact he1
              have hbe2 : (if decide (sc > st.best) = true then sc else st.best) ≤ MAX := by
                split
                · exact s2.2.1
                · exact he2
              have hal1 : MIN - 1 ≤ (if decide (sc > st.best) = true ∧
                  decide (sc > st.alpha) = true then sc else st.alpha) := by
                split
                · have := s2.1; omega
                · exact ha1
              have hal2 : (if decide (sc > st.best) = true ∧
                  decide (sc > st.alpha) = true then sc else st.alpha) ≤ MAX := by
                split
                · exact s2.2.1
                · exact ha2
              split at h
              · simp only [Option.some.injEq] at h
                subst h
                exact ⟨hbe1, hbe2, ttinv_eq
                  (cutoff_updates_proj _ _ _ _ _ _ _ _ _ _).2.2.2.2.1 hTt3⟩
              · split at h
                · exact ih _ _ h hTt3 hal1 hal2 hbe1 hbe2
                · exact ih _ _ h hTt3 hal1 hal2 hbe1 hbe2

/-- After the move loop, `search_rest` returns a score in `[MIN, MAX]` and
keeps the transposition-table invariant: the mate score `MIN + ply` stays
inside under the ply budget, and the stored entry's score is the loop's
running best. -/
theorem search_rest_bounds {B : Type} (R : Rules B)
    (child : B → SearchInfo → Int → Nat → Int → Int → Bool → Option (Int × SearchInfo))
    (F : Nat)
    (hchild : ∀ b i d p a bb pv r i2, child b i d p a bb pv = some (r, i2) → TtInv i →
      p + F ≤ 2000000 → MIN - 1 ≤ a → a ≤ MAX → MIN ≤ bb → bb ≤ MAX + 1 →
      MIN ≤ r ∧ r ≤ MAX ∧ TtInv i2)
    (board : B) (info : SearchInfo) (depth : Int) (ply : Nat) (alpha beta : Int)
    (is_pv : Bool) (ev : Int) (hash : Nat) (tt_index : Nat)
    (previous two_ply fbm : Option Action) (actions : List Action) (r : Int) (i2 : SearchInfo)
    (h : search_rest child R board info depth ply alpha beta is_pv ev hash tt_index
      previous two_ply fbm actions = some (r, i2))
    (hply : ply + 1 + F ≤ 2000000) (ha1 : MIN - 1 ≤ alpha) (ha2 : alpha ≤ MAX)
    (hb1 : MIN ≤ beta) (hb2 : beta ≤ MAX + 1) (hTt : TtInv info) :
    MIN ≤ r ∧ r ≤ MAX ∧ TtInv i2 := by
  have m1 : MIN = -1000000 := rfl
  have m2 : MAX = 1000000 := rfl
  simp only [search_rest] at h
  split at h
  · exact absurd h (by simp)
  · rename_i st hloop
    have hst := search_loop_bounds R board depth ply beta is_pv ev previous two_ply _
      child F hchild hply hb1 hb2 _ _ _ hloop hTt ha1 ha2 (le_refl MIN)
      (show MIN ≤ MAX by omega)
    split at h
    · rename_i tw heq
      simp only [Option.some.injEq, Prod.mk.injEq] at h
      obtain ⟨h1, h2⟩ := h
      subst h2
      refine ⟨h1 ▸ (by omega), h1 ▸ (by omega), hst.2.2⟩
    · simp only [Option.some.injEq, Prod.mk.injEq] at h
      obtain ⟨h1, h2⟩ := h
      subst h2
      exact ⟨h1 ▸ (by omega), h1 ▸ (by omega), hst.2.2⟩
    · split at h
      · simp only [Option.some.injEq, Prod.mk.injEq] at h
        obtain ⟨h1, h2⟩ := h
        subst h2
        exact ⟨h1 ▸ (by omega), h1 ▸ (by omega), hst.2.2⟩
      · rename_i hnab
        split at h
        · rename_i hw
          simp only [Option.some.injEq, Prod.mk.injEq] at h
          obtain ⟨h1, h2⟩ := h
          subst h2
          refine ⟨h1 ▸ hst.1, h1 ▸ hst.2.1, ?_⟩
          intro n e hn
          have hn2 : (if n = tt_index then
              some ({ hash := hash, best_move := st.best_move, score := st.best,
                      depth := depth, bounds := st.bounds } : TtEntry)
            else st.info.tt n) = some e := hn
          by_cases hni : n = tt_index
          · rw [if_pos hni] at hn2
            simp only [Option.some.injEq] at hn2
            subst hn2
            exact ⟨hst.1, hst.2.1⟩
          · rw [if_neg hni] at hn2
            exact hst.2.2 n e hn2
        · rename_i hnw
          simp only [Option.some.injEq, Prod.mk.injEq] at h
          obtain ⟨h1, h2⟩ := h
          subst h2
          refine ⟨h1 ▸ hst.1, h1 ▸ hst.2.1, ?_⟩
          intro n e hn
          have hn2 : (if n = tt_index then
              some ({ hash := hash, best_move := st.best_move, score := st.best,
                      depth := depth, bounds := st.bounds } : TtEntry)
            else st.info.tt n) = some e := hn
          by_cases hni : n = tt_index
          · rw [if_pos hni] at hn2
            simp only [Option.some.injEq] at hn2
            subst hn2
            exact ⟨hst.1, hst.2.1⟩
          · rw [if_neg hni] at hn2
            exact hst.2.2 n e hn2

/-- The null-move phase returns a score in `[MIN, MAX]` and keeps the
transposition-table invariant: a fail-high returns either the null score
or `beta`, both within the window bounds. -/
theorem search_main_bounds {B : Type} (R : Rules B)
    (child : B → SearchInfo → Int → Nat → Int → Int → Bool → Option (Int × SearchInfo))
    (F : Nat)
    (hchild : ∀ b i d p a bb pv r i2, child b i d p a bb pv = some (r, i2) → TtInv i →
      p + F ≤ 2000000 → MIN - 1 ≤ a → a ≤ MAX → MIN ≤ bb → bb ≤ MAX + 1 →
      MIN ≤ r ∧ r ≤ MAX ∧ TtInv i2)
    (board : B) (info : SearchInfo) (depth : Int) (ply : Nat) (alpha beta : Int)
    (is_pv : Bool) (ev : Int) (hash : Nat) (tt_index : Nat)
    (previous two_ply fbm : Option Action) (actions : List Action) (null_last_move : Bool)
    (r : Int) (i2 : SearchInfo)
    (h : search_main child R board info depth ply alpha beta is_pv ev hash tt_index
      previous two_ply fbm actions null_last_move = some (r, i2))
    (hply : ply + 1 + F ≤ 2000000) (ha1 : MIN - 1 ≤ alpha) (ha2 : alpha ≤ MAX)
    (hb1 : MIN ≤ beta) (hb2 : beta ≤ MAX + 1) (hTt : TtInv info) :
    MIN ≤ r ∧ r ≤ MAX ∧ TtInv i2 := by
  have m1 : MIN = -1000000 := rfl
  have m2 : MAX = 1000000 := rfl
  simp only [search_main] at h
  split at h
  · split at h
    · split at h
      · exact absurd h (by simp)
      · rename_i r0 iN hnm
        have hcb := hchild _ _ _ _ _ _ _ _ _ hnm hTt (by omega) (by omega) (by omega)
          (by omega) (by omega)
        have hn := bounds_neg hcb.1 hcb.2.1
        split at h
        · rename_i hns
          simp only [Option.some.injEq, Prod.mk.injEq] at h
          obtain ⟨h1, h2⟩ := h
          subst h2
          refine ⟨?_, ?_, hcb.2.2⟩
          · rw [← h1]
            split
            · exact hb1
            · exact hn.1
          · rw [← h1]
            split
            · omega
            · exact hn.2
        · exact search_rest_bounds R child F hchild board iN depth ply alpha beta is_pv
            ev hash tt_index previous two_ply fbm actions r i2 h hply ha1 ha2 hb1 hb2
            hcb.2.2
    · exact search_rest_bounds R child F hchild board info depth ply alpha beta is_pv
        ev hash tt_index previous two_ply fbm actions r i2 h hply ha1 ha2 hb1 hb2 hTt
  · exact search_rest_bounds R child F hchild board info depth ply alpha beta is_pv
      ev hash tt_index previous two_ply fbm actions r i2 h hply ha1 ha2 hb1 hb2 hTt

/-- Every `search` call returns a score in `[MIN, MAX]` and keeps the
transposition-table invariant, whenever the static evaluation stays in
`[MIN, MAX]`, the table satisfies the invariant on entry, the search
window is sane, and the ply plus the fuel stays within the mate-score
head room. -/
theorem search_bounds {B : Type} (R : Rules B) (hEval : EvalOk R) :
    ∀ (fuel : Nat) (b : B) (info : SearchInfo) (d : Int) (p : Nat) (a bb : Int) (pv : Bool)
      (r : Int) (i2 : SearchInfo),
      search R fuel b info d p a bb pv = some (r, i2) → TtInv info →
      p + fuel ≤ 2000000 → MIN - 1 ≤ a → a ≤ MAX → MIN ≤ bb → bb ≤ MAX + 1 →
      MIN ≤ r ∧ r ≤ MAX ∧ TtInv i2 := by
  intro fuel
  induction fuel with
  | zero =>
    intro b info d p a bb pv r i2 h hTt hply ha1 ha2 hb1 hb2
    exact absurd h (by simp [search])
  | succ fuel ih =>
    intro b info d p a bb pv r i2 h hTt hply ha1 ha2 hb1 hb2
    have m1 : MIN = -1000000 := rfl
    have m2 : MAX = 1000000 := rfl
    have hchild : ∀ b i d p a bb pv r i2, search R fuel b i d p a bb pv = some (r, i2) →
        TtInv i → p + fuel ≤ 2000000 → MIN - 1 ≤ a → a ≤ MAX → MIN ≤ bb → bb ≤ MAX + 1 →
        MIN ≤ r ∧ r ≤ MAX ∧ TtInv i2 :=
      fun b i d p a bb pv r i2 hh h1 h2 h3 h4 h5 h6 => ih b i d p a bb pv r i2 hh h1 h2 h3 h4 h5 h6
    simp only [search] at h
    by_cases hc : d ≥ 4 ∧ info.abort = false
    · rw [if_pos hc] at h
      split at h
      · simp only [Option.some.injEq, Prod.mk.injEq] at h
        obtain ⟨h1, h2⟩ := h
        subst h2
        exact ⟨by omega, by omega, hTt⟩
      · rename_i hnabE
        split at h
        · rename_i hd0
          exact absurd hd0 (by have := hc.1; omega)
        · split at h
          · rename_i hrfp
            exact absurd hrfp.2.1 (by have := hc.1; omega)
          · split at h
            · simp only [Option.some.injEq, Prod.mk.injEq] at h
              obtain ⟨h1, h2⟩ := h
              subst h2
              exact ⟨by omega, by omega, hTt⟩
            · split at h
              · rename_i s heq
                split at heq
                · rename_i entry hent
                  have hsc := hTt _ _ hent
                  split at heq
                  · split at heq
                    · simp only [Option.some.injEq] at heq
                      simp only [Option.some.injEq, Prod.mk.injEq] at h
                      obtain ⟨h1, h2⟩ := h
                      subst h2
                      refine ⟨?_, ?_, hTt⟩
                      · rw [← h1, ← heq]; exact hsc.1
                      · rw [← h1, ← heq]; exact hsc.2
                    · exact absurd heq (by simp)
                  · exact absurd heq (by simp)
                · exact absurd heq (by simp)
              · exact search_main_bounds R _ fuel hchild _ _ _ _ _ _ _ _ _ _ _ _ _ _ _
                  _ _ h (by omega) ha1 ha2 hb1 hb2 hTt
    · rw [if_neg hc] at h
      split at h
      · simp only [Option.some.injEq, Prod.mk.injEq] at h
        obtain ⟨h1, h2⟩ := h
        subst h2
        exact ⟨by omega, by omega, hTt⟩
      · rename_i hnab
        split at h
        · have hqb := quiescence_bounds R hEval fuel _ _ _ _ _ _ _ h
          have hq := quiescence_frame R fuel _ _ _ _ _ _ _ h
          obtain ⟨-, -, -, -, -, -, -, -, -, -, -, p12, -, -, -, -, -⟩ := hq
          exact ⟨hqb.1, hqb.2, ttinv_eq p12 hTt⟩
        · split at h
          · simp only [Option.some.injEq, Prod.mk.injEq] at h
            obtain ⟨h1, h2⟩ := h
            subst h2
            refine ⟨?_, ?_, hTt⟩
            · rw [← h1]; exact (hEval b info.mobility p).1
            · rw [← h1]; exact (hEval b info.mobility p).2
          · split at h
            · simp only [Option.some.injEq, Prod.mk.injEq] at h
              obtain ⟨h1, h2⟩ := h
              subst h2
              exact ⟨by omega, by omega, hTt⟩
            · split at h
              · rename_i s heq
                split at heq
                · rename_i entry hent
                  have hsc := hTt _ _ hent
                  split at heq
                  · split at heq
                    · simp only [Option.some.injEq] at heq
                      simp only [Option.some.injEq, Prod.mk.injEq] at h
                      obtain ⟨h1, h2⟩ := h
                      subst h2
                      refine ⟨?_, ?_, hTt⟩
                      · rw [← h1, ← heq]; exact hsc.1
                      · rw [← h1, ← heq]; exact hsc.2
                    · exact absurd heq (by simp)
                  · exact absurd heq (by simp)
                · exact absurd heq (by simp)
              · exact search_main_bounds R _ fuel hchild _ _ _ _ _ _ _ _ _ _ _ _ _ _ _
                  _ _ h (by omega) ha1 ha2 hb1 hb2 hTt

/-- Claim C6 (amended): the spec claims `search` returns a score strictly
inside `(MIN, MAX)`; in fact a mated root returns exactly `MIN + ply = MIN`.
What holds is the closed interval: whenever the static evaluation stays in
`[MIN, MAX]`, the transposition table satisfies its score invariant, the
window is sane and the ply plus fuel stays within the mate-score head
room, the returned score lies in `[MIN, MAX]`. -/
theorem C6_score_bounds {B : Type} (R : Rules B) (hEval : EvalOk R)
    (fuel : Nat) (b : B) (info : SearchInfo) (d : Int) (p : Nat) (a bb : Int) (pv : Bool)
    (r : Int) (i2 : SearchInfo)
    (h : search R fuel b info d p a bb pv = some (r, i2))
    (hTt : TtInv info) (hply : p + fuel ≤ 2000000)
    (ha1 : MIN - 1 ≤ a) (ha2 : a ≤ MAX) (hb1 : MIN ≤ bb) (hb2 : bb ≤ MAX + 1) :
    MIN ≤ r ∧ r ≤ MAX := by
  have hf := search_bounds R hEval fuel b info d p a bb pv r i2 h hTt hply ha1 ha2 hb1 hb2
  exact ⟨hf.1, hf.2.1⟩

/-- Witness for C6: a completed depth-1 search on the trivial board returns
a score within `[MIN, MAX]`. -/
theorem C6_score_bounds_witness :
    ∃ q : Int × SearchInfo,
      search trivialRules 2 () infoT 1 0 (-1000000) 1000000 true = some q ∧
      MIN ≤ q.1 ∧ q.1 ≤ MAX := by
  have hs : (search trivialRules 2 () infoT 1 0 (-1000000) 1000000 true).isSome = true := by
    decide
  obtain ⟨q, hq⟩ := Option.isSome_iff_exists.mp hs
  exact ⟨q, hq, C6_score_bounds trivialRules
    (fun b m p => show MIN ≤ 0 ∧ (0 : Int) ≤ MAX by decide)
    2 () infoT 1 0 (-1000000) 1000000 true q.1 q.2 (by rw [hq])
    (fun n e hn => Option.noConfusion hn) (by decide) (by decide) (by decide) (by decide)
    (by decide)⟩

/-- Counterexample to the literal C6: with the root already decided
(`R6` reports a win), a depth-1 search returns exactly `MIN = -1000000`,
the boundary, not a score strictly inside the open interval. -/
theorem C6_counterexample :
    (search R6 1 () infoT 1 0 (-1000000) 1000000 true).map Prod.fst = some (-1000000) ∧
    ¬ (MIN < -1000000) := by
  exact ⟨by decide, by decide⟩

end Engine
